import Mathlib

/-!
Shallow embedding of the W-DLRA observable thinking-geometry core
(`src/W-DLRA/00_CORE/thinking_geometry.py`) and proofs about it.

Python text is modelled as Lean `String` (a list of characters); Python
floats arising from Jaccard ratios and metric divisions are modelled as
exact rationals (`ℚ`), with Python's `round`'s ties-to-even behaviour made
explicit.  File I/O is cut at the boundary: `load_trace` receives the path
string together with the text that `path.read_text()` would have returned.
-/

namespace WDLRA

/-- Whitespace characters recognised by Python's `str.strip()` and by `\s`
in the ASCII range (space, tab, newline, carriage return, vertical tab,
form feed). -/
def isPyWs (c : Char) : Bool :=
  c = ' ' || c = '\t' || c = '\n' || c = '\r' || c = '\x0b' || c = '\x0c'

/-- Strip characters satisfying `pred` from both ends (Python `str.strip(chars)`). -/
def stripChars (pred : Char → Bool) (s : String) : String :=
  String.mk (((s.data.dropWhile pred).reverse.dropWhile pred).reverse)

/-- Python `str.strip()` (no argument: strip whitespace). -/
def pyStrip (s : String) : String := stripChars isPyWs s

/-- ASCII lower-casing of one character (`str.lower` on the ASCII inputs used here). -/
def asciiLowerChar (c : Char) : Char :=
  if 'A' ≤ c ∧ c ≤ 'Z' then Char.ofNat (c.toNat + 32) else c

/-- ASCII lower-casing of a string. -/
def asciiLower (s : String) : String := String.mk (s.data.map asciiLowerChar)

/-- Characters matched by the tokenizer's character class `[a-zA-Z0-9']`. -/
def isTokenChar (c : Char) : Bool :=
  ('a' ≤ c && c ≤ 'z') || ('A' ≤ c && c ≤ 'Z') || ('0' ≤ c && c ≤ '9') || c = '\''

/-- Collect the maximal runs of token characters, left to right.  `cur` holds the
run in progress (reversed); `acc` the finished tokens. -/
def tokenRuns : List Char → List Char → List String → List String
  | [], cur, acc => if cur.isEmpty then acc else acc ++ [String.mk cur.reverse]
  | c :: rest, cur, acc =>
    if isTokenChar c then tokenRuns rest (c :: cur) acc
    else if cur.isEmpty then tokenRuns rest [] acc
    else tokenRuns rest [] (acc ++ [String.mk cur.reverse])

/-- `_tokenize`: `re.findall(r"[a-zA-Z0-9']+", text.lower())`. -/
def tokenize (text : String) : List String :=
  tokenRuns (asciiLower text).data [] []

/-- The module-level stopword set `STOPWORDS`. -/
def STOPWORDS : List String :=
  ["a", "an", "and", "are", "as", "at", "be", "by", "for", "from", "has", "he",
   "in", "is", "it", "its", "of", "on", "that", "the", "to", "was", "were",
   "will", "with", "this", "these", "those", "or", "but", "if", "then", "than",
   "so", "we", "you", "they", "i", "our", "your", "their"]

/-- The module-level negation-word set `NEGATIONS`. -/
def NEGATIONS : List String :=
  ["not", "never", "no", "none", "cannot", "can't", "won't", "without"]

/-- Is `prev` a sentence-terminal character (`[.!?]` of the lookbehind)? -/
def isTerminal : Option Char → Bool
  | some '.' => true
  | some '!' => true
  | some '?' => true
  | _ => false

/-- Chunking for `re.split(r"(?<=[.!?])\s+", text)`: a split happens at a
whitespace character whose predecessor is `.`, `!` or `?`; the whole
whitespace run is the separator.  `inSep` records that we are inside a
separator run, `cur` is the reversed chunk in progress. -/
def sentChunks : List Char → Option Char → Bool → List Char → List String → List String
  | [], _, _, cur, acc => acc ++ [String.mk cur.reverse]
  | c :: rest, prev, inSep, cur, acc =>
    if inSep && isPyWs c then sentChunks rest (some c) true cur acc
    else if !inSep && isPyWs c && isTerminal prev then
      sentChunks rest (some c) true [] (acc ++ [String.mk cur.reverse])
    else sentChunks rest (some c) false (c :: cur) acc

/-- `_split_sentences`. -/
def split_sentences (text : String) : List String :=
  let chunks := sentChunks (pyStrip text).data none false [] []
  (chunks.map pyStrip).filter (· ≠ "")

/-- Splitting a character list at every character satisfying `p`, keeping empty
fragments (`re.split(r"[;,:()]", sentence)`). -/
def splitOnPred (p : Char → Bool) : List Char → List Char → List String → List String
  | [], cur, acc => acc ++ [String.mk cur.reverse]
  | c :: rest, cur, acc =>
    if p c then splitOnPred p rest [] (acc ++ [String.mk cur.reverse])
    else splitOnPred p rest (c :: cur) acc

/-- The clause-splitting conjunction words, in the alternation order of the
source regex. -/
def CONJS : List String := ["and", "but", "because", "while", "although", "however"]

/-- Regex word characters `\w` (ASCII range). -/
def isWordChar (c : Char) : Bool :=
  ('a' ≤ c && c ≤ 'z') || ('A' ≤ c && c ≤ 'Z') || ('0' ≤ c && c ≤ '9') || c = '_'

/-- Case-insensitive literal match: `pat` (given lower-case) against the head of
`l`; returns the remainder on success. -/
def matchCI : List Char → List Char → Option (List Char)
  | [], l => some l
  | _ :: _, [] => none
  | p :: ps, c :: cs => if asciiLowerChar c = p then matchCI ps cs else none

/-- Does the word boundary `\b` hold before a word character, given the
preceding character (`none` at the start of the text)? -/
def prevBoundary : Option Char → Bool
  | none => true
  | some c => !isWordChar c

/-- Try the conjunction alternatives in order at the head of `l`; the trailing
`\b` requires the next character (if any) to be a non-word character.
Returns the matched word and the remainder. -/
def tryConjWords : List String → List Char → Option (String × List Char)
  | [], _ => none
  | w :: ws, l =>
    match matchCI w.data l with
    | some rest =>
      if (match rest with | [] => true | c :: _ => !isWordChar c) then some (w, rest)
      else tryConjWords ws l
    | none => tryConjWords ws l

/-- One pass of `re.split(r"\b(?:and|but|because|while|although|however)\b", part,
flags=re.IGNORECASE)`.  Fuel-driven so that a successful conjunction match may
consume several characters; with `fuel ≥ length` the fuel never runs out. -/
def conjSplitGo : Nat → List Char → Option Char → List Char → List String → List String
  | 0, l, _, cur, acc => acc ++ [String.mk (cur.reverse ++ l)]
  | _ + 1, [], _, cur, acc => acc ++ [String.mk cur.reverse]
  | fuel + 1, c :: rest, prev, cur, acc =>
    if prevBoundary prev then
      match tryConjWords CONJS (c :: rest) with
      | some (w, rest') =>
        conjSplitGo fuel rest' (w.data.reverse.head?) [] (acc ++ [String.mk cur.reverse])
      | none => conjSplitGo fuel rest (some c) (c :: cur) acc
    else conjSplitGo fuel rest (some c) (c :: cur) acc

/-- Split a fragment at conjunction words (with word boundaries), keeping empty
fragments. -/
def conjSplit (l : List Char) : List String :=
  conjSplitGo (l.length + 1) l none [] []

/-- Characters stripped from clause fragments: `strip(" -\n\t")`. -/
def isClauseStripChar (c : Char) : Bool :=
  c = ' ' || c = '-' || c = '\n' || c = '\t'

/-- The clause fragments of a sentence before the whole-sentence fallback:
split on `[;,:()]`, split each part at conjunction words, strip `" -\n\t"`,
drop empties. -/
def clauseFragments (sentence : String) : List String :=
  let coarse := splitOnPred (fun c => c = ';' || c = ',' || c = ':' || c = '(' || c = ')')
    sentence.data [] []
  (coarse.map (fun part =>
    ((conjSplit part.data).map (stripChars isClauseStripChar)).filter (· ≠ ""))).flatten

/-- `_split_clauses`: the fragments, or the stripped whole sentence when there
are none (`clauses or [sentence.strip()]`). -/
def split_clauses (sentence : String) : List String :=
  let clauses := clauseFragments sentence
  if clauses.isEmpty then [pyStrip sentence] else clauses

/-- Round to the nearest integer, ties to even — the rounding mode of Python's
built-in `round`. -/
def roundHalfEven (q : ℚ) : ℤ :=
  if q - ⌊q⌋ < 1/2 then ⌊q⌋
  else if 1/2 < q - ⌊q⌋ then ⌊q⌋ + 1
  else if ⌊q⌋ % 2 = 0 then ⌊q⌋ else ⌊q⌋ + 1

/-- Python `round(q, n)` on the exact rational model. -/
def pyRound (q : ℚ) (n : Nat) : ℚ :=
  ((roundHalfEven (q * 10 ^ n) : ℚ)) / 10 ^ n

/-- `round(x, 3)`, used for edge weights. -/
def round3 (q : ℚ) : ℚ := pyRound q 3

/-- `round(x, 4)`, used for the scalar metrics. -/
def round4 (q : ℚ) : ℚ := pyRound q 4

/-- `_jaccard`: `|A∩B| / |A∪B|`, `0` if either set is empty (or the union is). -/
def jaccard (a b : Finset String) : ℚ :=
  if a = ∅ ∨ b = ∅ then 0
  else if (a ∪ b).card = 0 then 0
  else ((a ∩ b).card : ℚ) / ((a ∪ b).card : ℚ)

/-- The keys of `collections.Counter(tokens)` in iteration order (first
occurrence); `seen` accumulates the keys already emitted. -/
def counterKeysAux (seen : List String) : List String → List String
  | [] => []
  | t :: ts => if t ∈ seen then counterKeysAux seen ts else t :: counterKeysAux (t :: seen) ts

/-- The distinct tokens of a list, in first-occurrence order. -/
def counterKeys (l : List String) : List String := counterKeysAux [] l

/-- Lexicographic order on character lists by code point — the order Python
uses to compare strings. -/
def charListLt : List Char → List Char → Bool
  | [], [] => false
  | [], _ :: _ => true
  | _ :: _, [] => false
  | a :: as, b :: bs =>
    if a.toNat < b.toNat then true
    else if b.toNat < a.toNat then false
    else charListLt as bs

/-- Python string `<`. -/
def strLtB (a b : String) : Bool := charListLt a.data b.data

/-- Python string `<=`. -/
def strLeB (a b : String) : Bool := charListLt a.data b.data || a == b

theorem charListLt_cons (x y : Char) (xs ys : List Char) :
    charListLt (x :: xs) (y :: ys) = true ↔
      (x.toNat < y.toNat ∨ (x.toNat = y.toNat ∧ charListLt xs ys = true)) := by
  simp only [charListLt]
  split_ifs with h1 h2
  · simp [h1]
  · constructor
    · intro h
      simp at h
    · rintro (h | ⟨h, _⟩) <;> omega
  · have hx : x.toNat = y.toNat := by omega
    simp [hx]

theorem charListLt_trichotomy :
    ∀ a b : List Char, charListLt a b = true ∨ charListLt b a = true ∨ a = b := by
  intro a
  induction a with
  | nil =>
    intro b
    cases b with
    | nil => exact Or.inr (Or.inr rfl)
    | cons y ys => exact Or.inl rfl
  | cons x xs ih =>
    intro b
    cases b with
    | nil => exact Or.inr (Or.inl rfl)
    | cons y ys =>
      rcases Nat.lt_trichotomy x.toNat y.toNat with h | h | h
      · left
        rw [charListLt_cons]
        exact Or.inl h
      · rcases ih ys with h2 | h2 | h2
        · left
          rw [charListLt_cons]
          exact Or.inr ⟨h, h2⟩
        · right; left
          rw [charListLt_cons]
          exact Or.inr ⟨h.symm, h2⟩
        · right; right
          have hxy : x = y := Char.eq_of_val_eq (UInt32.ext h)
          rw [hxy, h2]
      · right; left
        rw [charListLt_cons]
        exact Or.inl h

theorem charListLt_trans :
    ∀ a b c : List Char, charListLt a b = true → charListLt b c = true →
      charListLt a c = true := by
  intro a
  induction a with
  | nil =>
    intro b c h1 h2
    cases b with
    | nil => simp [charListLt] at h1
    | cons y ys =>
      cases c with
      | nil => simp [charListLt] at h2
      | cons z zs => rfl
  | cons x xs ih =>
    intro b c h1 h2
    cases b with
    | nil => simp [charListLt] at h1
    | cons y ys =>
      cases c with
      | nil => simp [charListLt] at h2
      | cons z zs =>
        rw [charListLt_cons] at h1 h2 ⊢
        rcases h1 with h1 | ⟨h1, h1'⟩
        · rcases h2 with h2 | ⟨h2, h2'⟩
          · exact Or.inl (h1.trans h2)
          · exact Or.inl (by omega)
        · rcases h2 with h2 | ⟨h2, h2'⟩
          · exact Or.inl (by omega)
          · exact Or.inr ⟨h1.trans h2, ih ys zs h1' h2'⟩

theorem strData_inj {a b : String} (h : a.data = b.data) : a = b :=
  String.ext h

theorem strLeB_total (a b : String) : strLeB a b = true ∨ strLeB b a = true := by
  rcases charListLt_trichotomy a.data b.data with h | h | h
  · left
    simp [strLeB, h]
  · right
    simp [strLeB, h]
  · left
    have : a = b := strData_inj h
    simp [strLeB, this]

theorem strLeB_trans {a b c : String} (h1 : strLeB a b = true) (h2 : strLeB b c = true) :
    strLeB a c = true := by
  simp only [strLeB, Bool.or_eq_true, beq_iff_eq] at h1 h2 ⊢
  rcases h1 with h1 | h1
  · rcases h2 with h2 | h2
    · exact Or.inl (charListLt_trans _ _ _ h1 h2)
    · subst h2
      exact Or.inl h1
  · subst h1
    exact h2

theorem strLtB_of_le_of_ne {a b : String} (h : strLeB a b = true) (hne : a ≠ b) :
    strLtB a b = true := by
  simp only [strLeB, Bool.or_eq_true, beq_iff_eq] at h
  rcases h with h | h
  · exact h
  · exact absurd h hne

/-- The sort key of `_extract_keyphrases`, as a total order on tokens relative
to the frequency list: descending count, then descending length, then
ascending lexicographic.  `sorted` with key `(-count, -len(token), token)`
produces exactly this order (the key is injective on distinct tokens, so
stability is irrelevant). -/
def phraseLe (tokens : List String) (a b : String) : Prop :=
  tokens.count b < tokens.count a ∨
    (tokens.count a = tokens.count b ∧
      (b.length < a.length ∨ (a.length = b.length ∧ strLeB a b = true)))

instance phraseLeDecidable (tokens : List String) : DecidableRel (phraseLe tokens) := by
  intro a b; unfold phraseLe; infer_instance

instance phraseLeTotal (tokens : List String) : IsTotal String (phraseLe tokens) := by
  constructor
  intro a b
  unfold phraseLe
  rcases Nat.lt_trichotomy (tokens.count a) (tokens.count b) with h | h | h
  · exact Or.inr (Or.inl h)
  · rcases Nat.lt_trichotomy a.length b.length with h2 | h2 | h2
    · exact Or.inr (Or.inr ⟨h.symm, Or.inl h2⟩)
    · rcases strLeB_total a b with h3 | h3
      · exact Or.inl (Or.inr ⟨h, Or.inr ⟨h2, h3⟩⟩)
      · exact Or.inr (Or.inr ⟨h.symm, Or.inr ⟨h2.symm, h3⟩⟩)
    · exact Or.inl (Or.inr ⟨h, Or.inl h2⟩)
  · exact Or.inl (Or.inl h)

instance phraseLeTrans (tokens : List String) : IsTrans String (phraseLe tokens) := by
  constructor
  intro a b c hab hbc
  unfold phraseLe at *
  rcases hab with h1 | ⟨h1, h1'⟩
  · rcases hbc with h2 | ⟨h2, _⟩
    · exact Or.inl (h2.trans h1)
    · exact Or.inl (h2 ▸ h1)
  · rcases hbc with h2 | ⟨h2, h2'⟩
    · exact Or.inl (h1 ▸ h2)
    · refine Or.inr ⟨h1.trans h2, ?_⟩
      rcases h1' with h3 | ⟨h3, h3'⟩
      · rcases h2' with h4 | ⟨h4, _⟩
        · exact Or.inl (h4.trans h3)
        · exact Or.inl (h4 ▸ h3)
      · rcases h2' with h4 | ⟨h4, h4'⟩
        · exact Or.inl (h3 ▸ h4)
        · exact Or.inr ⟨h3.trans h4, strLeB_trans h3' h4'⟩

/-- `_extract_keyphrases`: tokenize, keep tokens of length `> 2` outside the
stopword set, rank the distinct tokens by the composite key, return the first
`limit` (the Python signature defaults `limit` to `3`; callers here pass it
explicitly). -/
def extract_keyphrases (clause : String) (limit : Nat) : List String :=
  let tokens := (tokenize clause).filter (fun t => 2 < t.length ∧ t ∉ STOPWORDS)
  if tokens.isEmpty then []
  else (List.insertionSort (phraseLe tokens) (counterKeys tokens)).take limit

/-- A JSON value, as produced by `json.loads`.  Numbers are modelled as
integers, which covers every JSON document the loader claims are about. -/
inductive JVal where
  | null
  | bool (b : Bool)
  | num (n : Int)
  | str (s : String)
  | arr (xs : List JVal)
  | obj (kvs : List (String × JVal))
deriving Repr

/-- The `ObservableTrace` dataclass.  `events` holds the JSON objects kept by
the loader. -/
structure ObservableTrace where
  prompt : String
  response : String
  events : List JVal
deriving Repr

/-- A graph node (`add_node` dictionary).  `ntype` is the `"type"` key;
`clause_index` is present on clause and keyphrase nodes only. -/
structure GNode where
  id : String
  ntype : String
  text : String
  sentence_index : Nat
  clause_index : Option Nat
deriving Repr, DecidableEq

/-- A graph edge (`add_edge` dictionary); `weight` is stored already rounded
to three decimals. -/
structure GEdge where
  id : String
  source : String
  target : String
  relation : String
  weight : ℚ
deriving Repr, DecidableEq

/-- A clause record, as appended to `clause_records`. -/
structure ClauseRec where
  id : String
  text : String
  tokens : Finset String
  negated : Bool
  sentence_index : Nat
deriving DecidableEq

/-- The mutable state of `build_thinking_geometry`: the `nodes`, `edges` and
`clause_records` lists. -/
structure BState where
  nodes : List GNode
  edges : List GEdge
  records : List ClauseRec

/-- Node id for creation ordinal `k` (`f"n{len(nodes)}"`). -/
def nid (k : Nat) : String := "n" ++ toString k

/-- Edge id for creation ordinal `k` (`f"e{len(edges)}"`). -/
def eid (k : Nat) : String := "e" ++ toString k

/-- `add_node`: append a node whose id is the current length of `nodes`;
returns the fresh id. -/
def add_node (st : BState) (ntype text : String) (sIdx : Nat) (cIdx : Option Nat) :
    String × BState :=
  let i := st.nodes.length
  (nid i, { st with nodes := st.nodes ++ [⟨nid i, ntype, text, sIdx, cIdx⟩] })

/-- `add_edge`: append an edge whose id is the current length of `edges`,
rounding the weight to three decimals. -/
def add_edge (st : BState) (src dst rel : String) (w : ℚ) : BState :=
  { st with edges := st.edges ++ [⟨eid st.edges.length, src, dst, rel, round3 w⟩] }

/-- The clause token set: tokens of the clause minus stopwords. -/
def clauseTokens (clause : String) : Finset String :=
  ((tokenize clause).filter (· ∉ STOPWORDS)).toFinset

/-- `any(n in c_tokens for n in NEGATIONS)`. -/
def clauseNegated (tokens : Finset String) : Bool :=
  NEGATIONS.any (fun n => n ∈ tokens)

/-- The keyphrase loop of one clause: a node and a `supports` edge of weight
`0.6` per phrase. -/
def addKeyphrases (sIdx cIdx : Nat) (cId : String) : List String → BState → BState
  | [], st => st
  | p :: ps, st =>
    let r := add_node st "keyphrase" p sIdx (some cIdx)
    addKeyphrases sIdx cIdx cId ps (add_edge r.2 cId r.1 "supports" 0.6)

/-- Processing one clause: clause node, `elaborates` edge of weight `0.8` from
its sentence, the clause record, then the keyphrases. -/
def addClause (sId : String) (sIdx cIdx : Nat) (clause : String) (st : BState) : BState :=
  let r := add_node st "clause" clause sIdx (some cIdx)
  let st2 := add_edge r.2 sId r.1 "elaborates" 0.8
  let ctoks := clauseTokens clause
  let st3 := { st2 with records :=
    st2.records ++ [⟨r.1, clause, ctoks, clauseNegated ctoks, sIdx⟩] }
  addKeyphrases sIdx cIdx r.1 (extract_keyphrases clause 3) st3

/-- The clause loop of one sentence (`enumerate(clauses)` starting at `cIdx`). -/
def addClauses (sId : String) (sIdx : Nat) : Nat → List String → BState → BState
  | _, [], st => st
  | cIdx, c :: cs, st => addClauses sId sIdx (cIdx + 1) cs (addClause sId sIdx cIdx c st)

/-- Processing one sentence: sentence node, then its clauses. -/
def addSentence (sIdx : Nat) (sentence : String) (st : BState) : BState :=
  let r := add_node st "sentence" sentence sIdx none
  addClauses r.1 sIdx 0 (split_clauses sentence) r.2

/-- The sentence loop (`enumerate(sentences)` starting at `sIdx`). -/
def addSentences : Nat → List String → BState → BState
  | _, [], st => st
  | sIdx, s :: rest, st => addSentences (sIdx + 1) rest (addSentence sIdx s st)

/-- The pairwise relation cascade for one ordered pair of clause records, in
the exact priority order of the source. -/
def classifyPair (left right : ClauseRec) (st : BState) : BState :=
  let overlap := jaccard left.tokens right.tokens
  if overlap ≤ 0 then st
  else if 0.72 ≤ overlap then add_edge st left.id right.id "repeats" overlap
  else if left.negated ≠ right.negated ∧ 0.22 ≤ overlap then
    add_edge st left.id right.id "contradicts" overlap
  else if left.sentence_index < right.sentence_index ∧ 0.14 ≤ overlap then
    add_edge st left.id right.id "elaborates" overlap
  else if 0.26 ≤ overlap then add_edge st left.id right.id "supports" overlap
  else st

/-- The inner loop `for j in range(i + 1, n)`. -/
def relInner (left : ClauseRec) : List ClauseRec → BState → BState
  | [], st => st
  | r :: rs, st => relInner left rs (classifyPair left r st)

/-- The outer loop `for i in range(n)`. -/
def relLoop : List ClauseRec → BState → BState
  | [], st => st
  | l :: rest, st => relLoop rest (relInner l rest st)

/-- The graph dictionary: `meta` (source marker, disclaimer, `events_count`),
`nodes` and `edges`. -/
structure Graph where
  meta_source : String
  meta_disclaimer : String
  events_count : Nat
  nodes : List GNode
  edges : List GEdge
deriving Repr

/-- `collections.Counter` of a list of strings, as an association list in
first-occurrence order. -/
def counterList (l : List String) : List (String × Nat) :=
  (counterKeys l).map (fun k => (k, l.count k))

/-- `dict.get(key, 0)` on a counter association list. -/
def countOf (key : String) (counts : List (String × Nat)) : Nat :=
  match counts.lookup key with
  | some n => n
  | none => 0

/-- The metrics report minus `relation_entropy` (whose irrational value is
modelled separately by `relation_entropy` below). -/
structure MetricsReport where
  counts_nodes : Nat
  counts_edges : Nat
  counts_events : Nat
  counts_clauses : Nat
  repetition_ratio : ℚ
  contradiction_flags : List String
  contradiction_count : Nat
  novelty : ℚ
  compression_ratio : ℚ
  branching_factor : ℚ
  relation_breakdown : List (String × Nat)
deriving Repr

/-- The stopword-filtered token list of a text, as used by `compute_metrics`
(no length filter there). -/
def filteredTokens (s : String) : List String :=
  (tokenize s).filter (· ∉ STOPWORDS)

/-- `compute_metrics`, except for the Shannon entropy (see
`relation_entropy`).  All divisions are exact rationals, rounded to four
decimals as in the source. -/
def compute_metrics (trace : ObservableTrace) (nodes : List GNode) (edges : List GEdge) :
    MetricsReport :=
  let response_tokens := filteredTokens trace.response
  let prompt_tokens := filteredTokens trace.prompt
  let response_set := response_tokens.toFinset
  let prompt_set := prompt_tokens.toFinset
  let novelty : ℚ :=
    if response_set = ∅ then 1
    else ((response_set \ prompt_set).card : ℚ) / (response_set.card : ℚ)
  let relation_counts := counterList (edges.map (·.relation))
  let clause_count := (nodes.filter (·.ntype = "clause")).length
  let repetition_ratio : ℚ := (countOf "repeats" relation_counts : ℚ) / (max clause_count 1 : ℚ)
  let contradiction_edges := (edges.filter (·.relation = "contradicts")).map (·.id)
  let out_degree := counterList (edges.map (·.source))
  let branching_factor : ℚ :=
    ((out_degree.map (·.2)).sum : ℚ) / (max out_degree.length 1 : ℚ)
  { counts_nodes := nodes.length
    counts_edges := edges.length
    counts_events := trace.events.length
    counts_clauses := clause_count
    repetition_ratio := round4 repetition_ratio
    contradiction_flags := contradiction_edges
    contradiction_count := contradiction_edges.length
    novelty := round4 novelty
    compression_ratio := round4 ((response_tokens.length : ℚ) / (max prompt_tokens.length 1 : ℚ))
    branching_factor := round4 branching_factor
    relation_breakdown := relation_counts }

/-- The base-2 Shannon entropy of the relation distribution, an irrational
real (the source rounds its float image to four decimals; no verified claim
mentions its value). -/
noncomputable def relation_entropy (edges : List GEdge) : ℝ :=
  let counts := counterList (edges.map (·.relation))
  let total : ℚ := ((counts.map (·.2)).sum : ℚ)
  if total = 0 then 0
  else (counts.map (fun p => -((p.2 : ℝ) / (total : ℝ)) * Real.logb 2 ((p.2 : ℝ) / (total : ℝ)))).sum

/-- `build_thinking_geometry`: the structural phase over the sentences, the
pairwise relation phase over the accumulated clause records, then the graph
and metrics. -/
def build_thinking_geometry (trace : ObservableTrace) : Graph × MetricsReport :=
  let st1 := addSentences 0 (split_sentences trace.response) ⟨[], [], []⟩
  let st2 := relLoop st1.records st1
  ({ meta_source := "observable_trace"
     meta_disclaimer :=
       "Derived from prompt/response/events only; no hidden chain-of-thought inference."
     events_count := trace.events.length
     nodes := st2.nodes
     edges := st2.edges },
   compute_metrics trace st2.nodes st2.edges)

/-- The errors observable at the `load_trace` boundary: the module's own
`TraceParseError`, and the Python exceptions that untrusted input can raise
through it (`json.JSONDecodeError`, `AttributeError`, `TypeError`). -/
inductive PyError where
  | traceParse (msg : String)
  | jsonDecode (msg : String)
  | attrError (msg : String)
  | typeError (msg : String)
deriving Repr, DecidableEq

/-- JSON whitespace. -/
def skipJWs (l : List Char) : List Char :=
  l.dropWhile (fun c => c = ' ' || c = '\t' || c = '\n' || c = '\r')

/-- Exact literal match (for the case-sensitive JSON keywords). -/
def matchExact : List Char → List Char → Option (List Char)
  | [], l => some l
  | _ :: _, [] => none
  | p :: ps, c :: cs => if c = p then matchExact ps cs else none

/-- Hexadecimal digit value. -/
def hexVal (c : Char) : Option Nat :=
  if '0' ≤ c ∧ c ≤ '9' then some (c.toNat - '0'.toNat)
  else if 'a' ≤ c ∧ c ≤ 'f' then some (c.toNat - 'a'.toNat + 10)
  else if 'A' ≤ c ∧ c ≤ 'F' then some (c.toNat - 'A'.toNat + 10)
  else none

/-- JSON string body (after the opening quote): `acc` holds the decoded
characters reversed; raw control characters are rejected as in `json.loads`. -/
def parseJStr : List Char → List Char → Option (String × List Char)
  | [], _ => none
  | '"' :: rest, acc => some (String.mk acc.reverse, rest)
  | '\\' :: e :: rest, acc =>
    match e with
    | '"' => parseJStr rest ('"' :: acc)
    | '\\' => parseJStr rest ('\\' :: acc)
    | '/' => parseJStr rest ('/' :: acc)
    | 'n' => parseJStr rest ('\n' :: acc)
    | 't' => parseJStr rest ('\t' :: acc)
    | 'r' => parseJStr rest ('\r' :: acc)
    | 'b' => parseJStr rest ('\x08' :: acc)
    | 'f' => parseJStr rest ('\x0c' :: acc)
    | 'u' =>
      match rest with
      | h1 :: h2 :: h3 :: h4 :: rest' =>
        (match hexVal h1, hexVal h2, hexVal h3, hexVal h4 with
         | some a, some b, some c, some d =>
           parseJStr rest' (Char.ofNat (((a * 16 + b) * 16 + c) * 16 + d) :: acc)
         | _, _, _, _ => none)
      | _ => none
    | _ => none
  | c :: rest, acc => if c.toNat < 32 then none else parseJStr rest (c :: acc)

/-- Consume decimal digits; returns them reversed together with the rest. -/
def parseDigits : List Char → List Char → List Char × List Char
  | [], acc => (acc, [])
  | c :: rest, acc =>
    if '0' ≤ c ∧ c ≤ '9' then parseDigits rest (c :: acc) else (acc, c :: rest)

/-- Value of a digit list (most significant first). -/
def digitsVal (l : List Char) : Nat :=
  l.foldl (fun acc c => acc * 10 + (c.toNat - '0'.toNat)) 0

/-- A JSON number.  Floats (a `.` or exponent after the integer part) are not
modelled and fail the parse; every trace document considered here uses
integers. -/
def parseJNum (neg : Bool) (l : List Char) : Option (JVal × List Char) :=
  let p := parseDigits l []
  if p.1.isEmpty then none
  else
    match p.2 with
    | '.' :: _ => none
    | 'e' :: _ => none
    | 'E' :: _ => none
    | rest =>
      some (.num (if neg then -(digitsVal p.1.reverse : Int) else (digitsVal p.1.reverse : Int)),
        rest)

mutual

/-- Recursive-descent JSON value parser; the fuel only bounds recursion and is
always supplied amply. -/
def parseJV : Nat → List Char → Option (JVal × List Char)
  | 0, _ => none
  | fuel + 1, l =>
    match skipJWs l with
    | [] => none
    | 'n' :: rest => (matchExact "ull".data rest).map (fun r => (JVal.null, r))
    | 't' :: rest => (matchExact "rue".data rest).map (fun r => (JVal.bool true, r))
    | 'f' :: rest => (matchExact "alse".data rest).map (fun r => (JVal.bool false, r))
    | '"' :: rest => (parseJStr rest []).map (fun p => (JVal.str p.1, p.2))
    | '-' :: rest => parseJNum true rest
    | '[' :: rest =>
      (match skipJWs rest with
       | ']' :: r => some (.arr [], r)
       | _ => parseJArrItems fuel rest [])
    | '\x7b' :: rest =>
      (match skipJWs rest with
       | '\x7d' :: r => some (.obj [], r)
       | _ => parseJObjItems fuel rest [])
    | c :: rest => if '0' ≤ c ∧ c ≤ '9' then parseJNum false (c :: rest) else none

/-- Comma-separated array items up to `]`. -/
def parseJArrItems : Nat → List Char → List JVal → Option (JVal × List Char)
  | 0, _, _ => none
  | fuel + 1, l, acc =>
    match parseJV fuel l with
    | none => none
    | some (v, rest) =>
      match skipJWs rest with
      | ',' :: rest' => parseJArrItems fuel rest' (v :: acc)
      | ']' :: rest' => some (.arr (v :: acc).reverse, rest')
      | _ => none

/-- Comma-separated `"key": value` members up to the closing brace. -/
def parseJObjItems : Nat → List Char → List (String × JVal) → Option (JVal × List Char)
  | 0, _, _ => none
  | fuel + 1, l, acc =>
    match skipJWs l with
    | '"' :: rest =>
      (match parseJStr rest [] with
       | none => none
       | some (k, rest1) =>
         match skipJWs rest1 with
         | ':' :: rest2 =>
           (match parseJV fuel rest2 with
            | none => none
            | some (v, rest3) =>
              match skipJWs rest3 with
              | ',' :: rest4 => parseJObjItems fuel rest4 ((k, v) :: acc)
              | '\x7d' :: rest4 => some (.obj ((k, v) :: acc).reverse, rest4)
              | _ => none)
         | _ => none)
    | _ => none

end

/-- `json.loads` on a document string. -/
def jsonLoads (s : String) : Except PyError JVal :=
  match parseJV (2 * s.length + 16) s.data with
  | some (v, rest) =>
    if (skipJWs rest).isEmpty then .ok v else .error (.jsonDecode "Extra data")
  | none => .error (.jsonDecode "Expecting value")

/-- Python truthiness of a JSON value. -/
def pyTruthy : JVal → Bool
  | .null => false
  | .bool b => b
  | .num n => n ≠ 0
  | .str s => s ≠ ""
  | .arr xs => !xs.isEmpty
  | .obj kvs => !kvs.isEmpty

/-- `dict.get(key, default)`; raises `AttributeError` on a non-dict (duplicate
JSON keys resolve to the last occurrence, as in a Python dict). -/
def pyDictGet (v : JVal) (key : String) (dflt : JVal) : Except PyError JVal :=
  match v with
  | .obj kvs =>
    .ok (match List.lookup key kvs.reverse with | some x => x | none => dflt)
  | _ => .error (.attrError "object has no attribute 'get'")

/-- `value.strip()`: only strings have `strip`. -/
def pyStripV : JVal → Except PyError String
  | .str s => .ok (pyStrip s)
  | _ => .error (.attrError "object has no attribute 'strip'")

/-- The values joined by `str.join` must all be strings. -/
def pyJoinStrs : List JVal → Except PyError (List String)
  | [] => .ok []
  | .str s :: rest => (pyJoinStrs rest).map (s :: ·)
  | _ :: _ => .error (.typeError "sequence item: expected str instance")

/-- `sep.join(values)`. -/
def pyJoin (sep : String) (vs : List JVal) : Except PyError String :=
  (pyJoinStrs vs).map (String.intercalate sep)

/-- Python iteration over a JSON value (`for e in v`): lists yield elements,
strings yield characters, dicts yield keys; scalars raise `TypeError`. -/
def pyIter : JVal → Except PyError (List JVal)
  | .arr xs => .ok xs
  | .str s => .ok (s.data.map (fun c => .str (String.mk [c])))
  | .obj kvs => .ok (kvs.map (fun p => .str p.1))
  | _ => .error (.typeError "object is not iterable")

/-- `isinstance(v, dict)`. -/
def isObjV : JVal → Bool
  | .obj _ => true
  | _ => false

/-- CPython `repr` of a JSON-shaped value, for `str()` on containers. -/
def pyRepr : JVal → String
  | .null => "None"
  | .bool true => "True"
  | .bool false => "False"
  | .num n => toString n
  | .str s => "'" ++ s ++ "'"
  | .arr xs =>
    "[" ++ String.intercalate ", " (xs.attach.map (fun x => pyRepr x.1)) ++ "]"
  | .obj kvs =>
    "\x7b" ++
      String.intercalate ", "
        (kvs.attach.map (fun p => "'" ++ p.1.1 ++ "': " ++ pyRepr p.1.2)) ++ "\x7d"
decreasing_by
  · have := List.sizeOf_lt_of_mem x.2
    simp only [JVal.arr.sizeOf_spec]
    omega
  · have hp := List.sizeOf_lt_of_mem p.2
    obtain ⟨⟨a, b⟩, hmem⟩ := p
    simp only [JVal.obj.sizeOf_spec, Prod.mk.sizeOf_spec] at *
    omega

/-- `str(v)`: a top-level string prints itself; everything else prints as its
repr. -/
def pyStr : JVal → String
  | .str s => s
  | v => pyRepr v

/-- One step of Python `str.splitlines` (the ASCII line terminators). -/
def splitlinesGo : List Char → List Char → List String → List String
  | [], cur, acc => if cur.isEmpty then acc else acc ++ [String.mk cur.reverse]
  | '\r' :: '\n' :: rest, cur, acc => splitlinesGo rest [] (acc ++ [String.mk cur.reverse])
  | '\r' :: rest, cur, acc => splitlinesGo rest [] (acc ++ [String.mk cur.reverse])
  | '\n' :: rest, cur, acc => splitlinesGo rest [] (acc ++ [String.mk cur.reverse])
  | '\x0b' :: rest, cur, acc => splitlinesGo rest [] (acc ++ [String.mk cur.reverse])
  | '\x0c' :: rest, cur, acc => splitlinesGo rest [] (acc ++ [String.mk cur.reverse])
  | '\x1c' :: rest, cur, acc => splitlinesGo rest [] (acc ++ [String.mk cur.reverse])
  | '\x1d' :: rest, cur, acc => splitlinesGo rest [] (acc ++ [String.mk cur.reverse])
  | '\x1e' :: rest, cur, acc => splitlinesGo rest [] (acc ++ [String.mk cur.reverse])
  | c :: rest, cur, acc => splitlinesGo rest (c :: cur) acc

/-- Python `str.splitlines()`. -/
def pySplitlines (s : String) : List String := splitlinesGo s.data [] []

/-- `pathlib.PurePath.name`: the component after the last `/`. -/
def pathName (p : String) : String :=
  String.mk ((p.data.reverse.takeWhile (· ≠ '/')).reverse)

/-- `pathlib.PurePath.suffix`: from the last dot of the name, provided the dot
is neither the first nor the last character of the name. -/
def pathSuffix (p : String) : String :=
  let name := pathName p
  let after := name.data.reverse.takeWhile (· ≠ '.')
  if '.' ∈ name.data ∧ 0 < name.length - 1 - after.length ∧ 0 < after.length then
    String.mk ('.' :: after.reverse)
  else ""

/-- Maximal-munch `\s*` (safe whenever the next pattern item cannot match a
whitespace character). -/
def skipWs (l : List Char) : List Char := l.dropWhile isPyWs

/-- `\s*` followed by a continuation that *can* consume whitespace: try the
greedy consumption first, then backtrack one character at a time, exactly as
the regex engine does. -/
def wsStarThen {α : Type} (k : List Char → Option α) : List Char → Option α
  | [] => k []
  | c :: rest =>
    if isPyWs c then
      match wsStarThen k rest with
      | some r => some r
      | none => k (c :: rest)
    else k (c :: rest)

/-- A lazy group `(.+?)` under `(?s)`: grow the group one character at a time
and stop at the first position where `tail` matches; the group is non-empty. -/
def lazyUntil (tail : List Char → Bool) : List Char → List Char → Option (String × List Char)
  | _, [] => none
  | acc, c :: rest =>
    if tail rest then some (String.mk (c :: acc).reverse, rest)
    else lazyUntil tail (c :: acc) rest

/-- `re.search`: try a position-anchored matcher at every start position, left
to right. -/
def searchPos {α : Type} (f : List Char → Option α) : List Char → Option α
  | [] => f []
  | c :: rest =>
    match f (c :: rest) with
    | some r => some r
    | none => searchPos f rest

/-- The tail `\n\s*response\s*:` of the prompt pattern. -/
def promptTail (l : List Char) : Bool :=
  match l with
  | '\n' :: rest =>
    (match matchCI "response".data (skipWs rest) with
     | some r2 => (match skipWs r2 with | ':' :: _ => true | _ => false)
     | none => false)
  | _ => false

/-- The pattern `(?is)prompt\s*:\s*(.+?)\n\s*response\s*:` anchored at one
position; returns the group. -/
def promptMatchAt (l : List Char) : Option String :=
  match matchCI "prompt".data l with
  | none => none
  | some r1 =>
    match skipWs r1 with
    | ':' :: r3 => wsStarThen (fun r4 => (lazyUntil promptTail [] r4).map (·.1)) r3
    | _ => none

/-- `re.search` for the prompt section. -/
def prompt_search (raw : String) : Option String := searchPos promptMatchAt raw.data

/-- The terminator `(?:\n\s*events\s*:|$)` of the response pattern; `$` holds
at the end of the text or just before a final newline. -/
def respTerm (l : List Char) : Bool :=
  (match l with
   | '\n' :: rest =>
     (match matchCI "events".data (skipWs rest) with
      | some r2 => (match skipWs r2 with | ':' :: _ => true | _ => false)
      | none => false)
   | _ => false)
  || l.isEmpty || l == ['\n']

/-- The pattern `(?is)response\s*:\s*(.+?)(?:\n\s*events\s*:|$)` anchored at
one position. -/
def respMatchAt (l : List Char) : Option String :=
  match matchCI "response".data l with
  | none => none
  | some r1 =>
    match skipWs r1 with
    | ':' :: r3 => wsStarThen (fun r4 => (lazyUntil respTerm [] r4).map (·.1)) r3
    | _ => none

/-- `re.search` for the response section. -/
def response_search (raw : String) : Option String := searchPos respMatchAt raw.data

/-- The pattern `(?is)events\s*:\s*(\[.*\])\s*$` anchored at one position: the
greedy `(\[.*\])` reaches to the last `]` that is followed only by
whitespace. -/
def eventsMatchAt (l : List Char) : Option String :=
  match matchCI "events".data l with
  | none => none
  | some r1 =>
    match skipWs r1 with
    | ':' :: r2 =>
      (match skipWs r2 with
       | '[' :: r3 =>
         let trimmed := (('[' :: r3).reverse.dropWhile isPyWs).reverse
         (match trimmed.getLast? with
          | some ']' => some (String.mk trimmed)
          | _ => none)
       | _ => none)
    | _ => none

/-- `re.search` for the trailing events array. -/
def events_search (raw : String) : Option String := searchPos eventsMatchAt raw.data

/-- Strip a raw JSONL line; skip it when blank (`if not line: continue`). -/
def blankStripped (raw : String) : Option String :=
  let line := pyStrip raw
  if line = "" then none else some line

/-- The non-blank stripped lines of a JSONL document. -/
def recordLines (content : String) : List String :=
  (pySplitlines content).filterMap blankStripped

/-- `json.loads` over each line in order, stopping at the first failure. -/
def parseRecords : List String → Except PyError (List JVal)
  | [] => .ok []
  | line :: rest => do
    let v ← jsonLoads line
    let vs ← parseRecords rest
    .ok (v :: vs)

/-- `r.get("response", "")` for each record, keeping the truthy values
(`... for r in records if r.get("response")`), in order. -/
def collectResponses : List JVal → Except PyError (List JVal)
  | [] => .ok []
  | r :: rs => do
    let v ← pyDictGet r "response" (.str "")
    let tail ← collectResponses rs
    .ok (if pyTruthy v then v :: tail else tail)

/-- `[e for r in records for e in r.get("events", [])]` before the
`isinstance` filter. -/
def collectEvents : List JVal → Except PyError (List JVal)
  | [] => .ok []
  | r :: rs => do
    let ev ← pyDictGet r "events" (.arr [])
    let items ← pyIter ev
    let tail ← collectEvents rs
    .ok (items ++ tail)

/-- The merge step of the JSONL branch: empty record list raises
`TraceParseError`; otherwise first prompt wins, truthy responses are joined
with newlines, events are concatenated and filtered to dicts, and the prompt
and response are stripped. -/
def mergeRecords : List JVal → Except PyError ObservableTrace
  | [] => .error (.traceParse "JSONL trace is empty.")
  | r0 :: rest => do
    let p ← pyDictGet r0 "prompt" (.str "")
    let respVals ← collectResponses (r0 :: rest)
    let resp ← pyJoin "\n" respVals
    let evs ← collectEvents (r0 :: rest)
    let pstr ← pyStripV p
    .ok ⟨pstr, pyStrip resp, evs.filter isObjV⟩

/-- `load_trace`.  The filesystem read is cut at the boundary: `content` is
the text `path.read_text()` would return; the branch taken depends only on
`path.suffix.lower()` as in the source. -/
def load_trace (path : String) (content : String) : Except PyError ObservableTrace :=
  let suffix := asciiLower (pathSuffix path)
  if suffix = ".jsonl" then do
    let records ← parseRecords (recordLines content)
    mergeRecords records
  else if suffix = ".json" then do
    let data ← jsonLoads content
    let p ← pyDictGet data "prompt" (.str "")
    let r ← pyDictGet data "response" (.str "")
    let ev ← pyDictGet data "events" (.arr [])
    let items ← pyIter ev
    .ok ⟨pyStrip (pyStr p), pyStrip (pyStr r), items.filter isObjV⟩
  else
    match prompt_search content, response_search content with
    | some pm, some rm =>
      (match events_search content with
       | some ejson =>
         (do
           let loaded ← jsonLoads ejson
           let events := (match loaded with | JVal.arr xs => xs.filter isObjV | _ => [])
           .ok (⟨pyStrip pm, pyStrip rm, events⟩ : ObservableTrace))
       | none => .ok ⟨pyStrip pm, pyStrip rm, []⟩)
    | _, _ => .error (.traceParse "Text trace must contain 'prompt:' and 'response:' sections.")

/-! ## Helper lemmas -/

theorem floor_le_roundHalfEven (q : ℚ) : ⌊q⌋ ≤ roundHalfEven q := by
  unfold roundHalfEven
  split_ifs <;> omega

theorem roundHalfEven_ge (q : ℚ) (n : ℤ) (h : (n : ℚ) ≤ q) : n ≤ roundHalfEven q :=
  le_trans (Int.le_floor.mpr h) (floor_le_roundHalfEven q)

theorem roundHalfEven_le (q : ℚ) (n : ℤ) (h : q ≤ (n : ℚ)) : roundHalfEven q ≤ n := by
  have hf : ⌊q⌋ ≤ n := by
    have := Int.floor_le_floor h
    simpa using this
  have hfq : (⌊q⌋ : ℚ) ≤ q := Int.floor_le q
  unfold roundHalfEven
  split_ifs with h1 h2 h3
  · exact hf
  · have hlt : (⌊q⌋ : ℚ) < (n : ℚ) := by linarith
    have : ⌊q⌋ < n := by exact_mod_cast hlt
    omega
  · exact hf
  · have heq : q - (⌊q⌋ : ℚ) = 1/2 := le_antisymm (not_lt.mp h2) (not_lt.mp h1)
    have hlt : (⌊q⌋ : ℚ) < (n : ℚ) := by linarith
    have : ⌊q⌋ < n := by exact_mod_cast hlt
    omega

theorem roundHalfEven_intCast (m : ℤ) : roundHalfEven (m : ℚ) = m := by
  unfold roundHalfEven
  rw [Int.floor_intCast]
  norm_num

theorem round4_one : round4 1 = 1 := by
  unfold round4 pyRound
  have h : ((1 : ℚ) * 10 ^ 4) = ((10000 : ℤ) : ℚ) := by norm_num
  rw [h, roundHalfEven_intCast]
  norm_num

theorem round3_le_one {q : ℚ} (h : q ≤ 1) : round3 q ≤ 1 := by
  unfold round3 pyRound
  have hb : roundHalfEven (q * 10 ^ 3) ≤ 1000 := by
    apply roundHalfEven_le
    push_cast
    linarith
  rw [div_le_one (by norm_num)]
  exact_mod_cast (by exact_mod_cast hb : ((roundHalfEven (q * 10 ^ 3) : ℚ)) ≤ 1000)

theorem round3_ge_threshold {q : ℚ} (h : 7/50 ≤ q) : 7/50 ≤ round3 q := by
  unfold round3 pyRound
  have hb : (140 : ℤ) ≤ roundHalfEven (q * 10 ^ 3) := by
    apply roundHalfEven_ge
    push_cast
    linarith
  rw [le_div_iff₀ (by norm_num)]
  have h2 : (140 : ℚ) ≤ (roundHalfEven (q * 10 ^ 3) : ℚ) := by exact_mod_cast hb
  have h3 : (7 : ℚ) / 50 * 10 ^ 3 = 140 := by norm_num
  rw [h3]
  exact h2

theorem jaccard_nonneg (a b : Finset String) : 0 ≤ jaccard a b := by
  unfold jaccard
  split_ifs <;> positivity

theorem jaccard_le_one (a b : Finset String) : jaccard a b ≤ 1 := by
  unfold jaccard
  split_ifs with h1 h2
  · norm_num
  · norm_num
  · rw [div_le_one (by exact_mod_cast Nat.pos_of_ne_zero h2)]
    exact_mod_cast Finset.card_le_card (Finset.inter_subset_union)

theorem counterKeysAux_mem {t : String} :
    ∀ {l seen : List String}, t ∈ counterKeysAux seen l → t ∈ l := by
  intro l
  induction l with
  | nil => intro seen h; simp [counterKeysAux] at h
  | cons x xs ih =>
    intro seen h
    unfold counterKeysAux at h
    split_ifs at h with hx
    · exact List.mem_cons_of_mem _ (ih h)
    · rcases List.mem_cons.mp h with h | h
      · exact h ▸ List.mem_cons_self _ _
      · exact List.mem_cons_of_mem _ (ih h)

theorem counterKeysAux_not_seen {t : String} :
    ∀ {l seen : List String}, t ∈ counterKeysAux seen l → t ∉ seen := by
  intro l
  induction l with
  | nil => intro seen h; simp [counterKeysAux] at h
  | cons x xs ih =>
    intro seen h
    unfold counterKeysAux at h
    split_ifs at h with hx
    · exact ih h
    · rcases List.mem_cons.mp h with h | h
      · exact h ▸ hx
      · intro hs
        exact (ih h) (List.mem_cons_of_mem _ hs)

theorem counterKeysAux_nodup : ∀ (l seen : List String), (counterKeysAux seen l).Nodup := by
  intro l
  induction l with
  | nil => intro seen; simp [counterKeysAux]
  | cons x xs ih =>
    intro seen
    unfold counterKeysAux
    split_ifs with hx
    · exact ih seen
    · refine List.nodup_cons.mpr ⟨?_, ih (x :: seen)⟩
      intro hmem
      exact (counterKeysAux_not_seen hmem) (List.mem_cons_self _ _)

theorem counterKeys_nodup (l : List String) : (counterKeys l).Nodup :=
  counterKeysAux_nodup l []

theorem counterKeys_mem {t : String} {l : List String} (h : t ∈ counterKeys l) : t ∈ l :=
  counterKeysAux_mem h

/-! ## C4: keyphrase extraction -/

/-- C4.  For every clause string and limit, `extract_keyphrases` discards the
tokens of length `≤ 2` or in the stopword set and returns at most `limit`
distinct surviving tokens, ordered by descending frequency with ties broken
by descending token length and then ascending lexicographic order; a clause
with no surviving tokens yields the empty list. -/
theorem c4_extract_keyphrases (clause : String) (limit : Nat) :
    (extract_keyphrases clause limit).length ≤ limit ∧
    (extract_keyphrases clause limit).Nodup ∧
    (∀ t ∈ extract_keyphrases clause limit,
      t ∈ (tokenize clause).filter (fun t => 2 < t.length ∧ t ∉ STOPWORDS)) ∧
    (extract_keyphrases clause limit).Pairwise (fun a b =>
      ((tokenize clause).filter (fun t => 2 < t.length ∧ t ∉ STOPWORDS)).count b <
          ((tokenize clause).filter (fun t => 2 < t.length ∧ t ∉ STOPWORDS)).count a ∨
        (((tokenize clause).filter (fun t => 2 < t.length ∧ t ∉ STOPWORDS)).count a =
            ((tokenize clause).filter (fun t => 2 < t.length ∧ t ∉ STOPWORDS)).count b ∧
          (b.length < a.length ∨ (a.length = b.length ∧ strLtB a b = true)))) ∧
    ((tokenize clause).filter (fun t => 2 < t.length ∧ t ∉ STOPWORDS) = [] →
      extract_keyphrases clause limit = []) := by
  set toks := (tokenize clause).filter (fun t => 2 < t.length ∧ t ∉ STOPWORDS) with htoks
  have hunf : extract_keyphrases clause limit =
      if toks.isEmpty then []
      else (List.insertionSort (phraseLe toks) (counterKeys toks)).take limit := rfl
  by_cases hE : toks.isEmpty
  · rw [hunf, if_pos hE]
    refine ⟨Nat.zero_le _, List.nodup_nil, by simp, List.Pairwise.nil, fun _ => rfl⟩
  · rw [hunf, if_neg hE]
    have hnodup : (List.insertionSort (phraseLe toks) (counterKeys toks)).Nodup :=
      ((List.perm_insertionSort (phraseLe toks) (counterKeys toks)).nodup_iff).mpr
        (counterKeys_nodup toks)
    refine ⟨List.length_take_le _ _, ?_, ?_, ?_, ?_⟩
    · exact hnodup.sublist (List.take_sublist _ _)
    · intro t ht
      have h1 : t ∈ List.insertionSort (phraseLe toks) (counterKeys toks) :=
        (List.take_sublist _ _).mem ht
      exact counterKeys_mem ((List.mem_insertionSort _).mp h1)
    · have hsorted : (List.insertionSort (phraseLe toks) (counterKeys toks)).Pairwise
          (phraseLe toks) := List.sorted_insertionSort (phraseLe toks) (counterKeys toks)
      have hcomb := (hsorted.and hnodup).sublist (List.take_sublist limit _)
      refine hcomb.imp ?_
      rintro a b ⟨hle, hne⟩
      rcases hle with h1 | ⟨h1, h1'⟩
      · exact Or.inl h1
      · refine Or.inr ⟨h1, ?_⟩
        rcases h1' with h2 | ⟨h2, h2'⟩
        · exact Or.inl h2
        · exact Or.inr ⟨h2, strLtB_of_le_of_ne h2' hne⟩
    · intro hnil
      rw [hnil] at hE
      simp at hE

/-- Witness for C4 at a concrete clause: `"the device must not log the
signal."` keeps three ranked keyphrases, and a clause of stopwords and short
tokens keeps none. -/
theorem c4_witness :
    extract_keyphrases "the device must not log the signal." 3 = ["device", "signal", "must"] ∧
    extract_keyphrases "aa to the of" 3 = [] := by
  constructor
  · rfl
  · exact (c4_extract_keyphrases "aa to the of" 3).2.2.2.2 (by rfl)

/-! ## C5: clause splitting never returns an empty list -/

/-- C5.  For every non-empty sentence, `split_clauses` returns a non-empty
list; when the punctuation/conjunction segmentation leaves no non-empty
trimmed fragment, the stripped whole sentence is the sole clause. -/
theorem c5_split_clauses_nonempty (s : String) (h : s ≠ "") :
    split_clauses s ≠ [] ∧ (clauseFragments s = [] → split_clauses s = [pyStrip s]) := by
  have hunf : split_clauses s =
      if (clauseFragments s).isEmpty then [pyStrip s] else clauseFragments s := rfl
  by_cases hE : (clauseFragments s).isEmpty
  · rw [hunf, if_pos hE]
    exact ⟨by simp, fun _ => rfl⟩
  · rw [hunf, if_neg hE]
    refine ⟨fun hnil => ?_, fun hfrag => ?_⟩
    · rw [hnil] at hE
      simp at hE
    · rw [hfrag] at hE
      simp at hE

/-- Witness for C5: the whitespace-only sentence has no fragments and falls
back to its stripped self, and a punctuation-only sentence is also served. -/
theorem c5_witness :
    split_clauses " " ≠ [] ∧ split_clauses " " = [pyStrip " "] :=
  ⟨(c5_split_clauses_nonempty " " (by decide)).1,
   (c5_split_clauses_nonempty " " (by decide)).2 (by rfl)⟩

/-! ## C6: the novelty metric -/

/-- C6.  The pipeline's novelty metric is the number of distinct
stopword-filtered response tokens absent from the filtered prompt token set,
divided by the number of distinct filtered response tokens, rounded to four
decimals; it is `1` when the response has no filtered tokens, and in
particular `1` whenever the filtered response and prompt token sets are
disjoint. -/
theorem c6_novelty (t : ObservableTrace) :
    (build_thinking_geometry t).2.novelty =
      round4 (if (filteredTokens t.response).toFinset = ∅ then 1
        else (((filteredTokens t.response).toFinset \ (filteredTokens t.prompt).toFinset).card : ℚ) /
          (((filteredTokens t.response).toFinset.card : ℚ))) ∧
    ((filteredTokens t.response).toFinset = ∅ → (build_thinking_geometry t).2.novelty = 1) ∧
    ((filteredTokens t.response).toFinset ∩ (filteredTokens t.prompt).toFinset = ∅ →
      (build_thinking_geometry t).2.novelty = 1) := by
  have hmain : (build_thinking_geometry t).2.novelty =
      round4 (if (filteredTokens t.response).toFinset = ∅ then 1
        else (((filteredTokens t.response).toFinset \ (filteredTokens t.prompt).toFinset).card : ℚ) /
          (((filteredTokens t.response).toFinset.card : ℚ))) := rfl
  refine ⟨hmain, fun hempty => ?_, fun hdisj => ?_⟩
  · rw [hmain, if_pos hempty]
    exact round4_one
  · rw [hmain]
    by_cases hempty : (filteredTokens t.response).toFinset = ∅
    · rw [if_pos hempty]
      exact round4_one
    · rw [if_neg hempty]
      have hsd : (filteredTokens t.response).toFinset \ (filteredTokens t.prompt).toFinset =
          (filteredTokens t.response).toFinset :=
        Finset.sdiff_eq_self_of_disjoint (Finset.disjoint_iff_inter_eq_empty.mpr hdisj)
      have hcard : (((filteredTokens t.response).toFinset.card : ℚ)) ≠ 0 := by
        exact_mod_cast Finset.card_ne_zero.mpr (Finset.nonempty_iff_ne_empty.mpr hempty)
      rw [hsd, div_self hcard]
      exact round4_one

/-- Witness for C6 at concrete traces: a response disjoint from the prompt has
novelty `1`, and so does an empty response. -/
theorem c6_witness :
    (build_thinking_geometry ⟨"alpha beta", "gamma delta", []⟩).2.novelty = 1 ∧
    (build_thinking_geometry ⟨"alpha beta", "", []⟩).2.novelty = 1 :=
  ⟨(c6_novelty ⟨"alpha beta", "gamma delta", []⟩).2.2 (by decide),
   (c6_novelty ⟨"alpha beta", "", []⟩).2.1 (by decide)⟩

/-! ## C1: the pairwise relation classification -/

/-- All ordered pairs `(l[i], l[j])` with `i < j`, in the iteration order of
the double loop `for i in range(n): for j in range(i+1, n)`. -/
def ordPairs {α : Type} : List α → List (α × α)
  | [] => []
  | x :: xs => xs.map (fun y => (x, y)) ++ ordPairs xs

/-- An edge without its positional id (the ids are the subject of C3). -/
def stripId (e : GEdge) : String × String × String × ℚ :=
  (e.source, e.target, e.relation, e.weight)

/-- The relation rule cascade exactly as the specification states it (first
matching rule wins): `repeats` at similarity `≥ 0.72`, `contradicts` when the
negation flags differ at `≥ 0.22`, `elaborates` when the later clause sits in
a strictly later sentence at `≥ 0.14`, `supports` at `≥ 0.26`; no edge at
similarity `0` or when no rule matches; direction earlier → later; weight
rounded to three decimals. -/
def relationRuleSpec (l r : ClauseRec) : Option (String × String × String × ℚ) :=
  if jaccard l.tokens r.tokens ≤ 0 then none
  else if 0.72 ≤ jaccard l.tokens r.tokens then
    some (l.id, r.id, "repeats", round3 (jaccard l.tokens r.tokens))
  else if l.negated ≠ r.negated ∧ 0.22 ≤ jaccard l.tokens r.tokens then
    some (l.id, r.id, "contradicts", round3 (jaccard l.tokens r.tokens))
  else if l.sentence_index < r.sentence_index ∧ 0.14 ≤ jaccard l.tokens r.tokens then
    some (l.id, r.id, "elaborates", round3 (jaccard l.tokens r.tokens))
  else if 0.26 ≤ jaccard l.tokens r.tokens then
    some (l.id, r.id, "supports", round3 (jaccard l.tokens r.tokens))
  else none

theorem classifyPair_nodes (l r : ClauseRec) (st : BState) :
    (classifyPair l r st).nodes = st.nodes := by
  unfold classifyPair add_edge
  dsimp only
  split_ifs <;> rfl

theorem classifyPair_records (l r : ClauseRec) (st : BState) :
    (classifyPair l r st).records = st.records := by
  unfold classifyPair add_edge
  dsimp only
  split_ifs <;> rfl

theorem classifyPair_edges (l r : ClauseRec) (st : BState) :
    (classifyPair l r st).edges.map stripId =
      st.edges.map stripId ++ (relationRuleSpec l r).toList := by
  unfold classifyPair relationRuleSpec add_edge
  dsimp only
  split_ifs <;> simp [stripId]

theorem relInner_nodes (l : ClauseRec) :
    ∀ (rs : List ClauseRec) (st : BState), (relInner l rs st).nodes = st.nodes := by
  intro rs
  induction rs with
  | nil => intro st; rfl
  | cons r rs ih => intro st; rw [relInner, ih, classifyPair_nodes]

theorem relInner_records (l : ClauseRec) :
    ∀ (rs : List ClauseRec) (st : BState), (relInner l rs st).records = st.records := by
  intro rs
  induction rs with
  | nil => intro st; rfl
  | cons r rs ih => intro st; rw [relInner, ih, classifyPair_records]

theorem relInner_edges (l : ClauseRec) :
    ∀ (rs : List ClauseRec) (st : BState),
      (relInner l rs st).edges.map stripId =
        st.edges.map stripId ++ rs.filterMap (fun r => relationRuleSpec l r) := by
  intro rs
  induction rs with
  | nil => intro st; simp [relInner]
  | cons r rs ih =>
    intro st
    rw [relInner, ih, classifyPair_edges, List.filterMap_cons]
    cases relationRuleSpec l r <;> simp

theorem relLoop_nodes :
    ∀ (records : List ClauseRec) (st : BState), (relLoop records st).nodes = st.nodes := by
  intro records
  induction records with
  | nil => intro st; rfl
  | cons l rest ih => intro st; rw [relLoop, ih, relInner_nodes]

theorem relLoop_edges :
    ∀ (records : List ClauseRec) (st : BState),
      (relLoop records st).edges.map stripId =
        st.edges.map stripId ++
          (ordPairs records).filterMap (fun p => relationRuleSpec p.1 p.2) := by
  intro records
  induction records with
  | nil => intro st; simp [relLoop, ordPairs]
  | cons l rest ih =>
    intro st
    rw [relLoop, ih, relInner_edges, ordPairs, List.filterMap_append, List.filterMap_map,
      List.append_assoc]
    rfl

/-- C1.  Over the whole response, the relation phase appends, for every pair
of distinct clause records in creation order (earlier `i`, later `j`),
exactly the edge described by the specification's rule cascade
(`relationRuleSpec`): one edge from the earlier clause to the later one with
weight `round(s, 3)` when the Jaccard similarity `s` is positive and a rule
matches, and nothing otherwise. -/
theorem c1_relation_edges (t : ObservableTrace) :
    (build_thinking_geometry t).1.edges.map stripId =
      (addSentences 0 (split_sentences t.response) ⟨[], [], []⟩).edges.map stripId ++
        (ordPairs (addSentences 0 (split_sentences t.response) ⟨[], [], []⟩).records).filterMap
          (fun p => relationRuleSpec p.1 p.2) := by
  have hb : (build_thinking_geometry t).1.edges =
      (relLoop (addSentences 0 (split_sentences t.response) ⟨[], [], []⟩).records
        (addSentences 0 (split_sentences t.response) ⟨[], [], []⟩)).edges := rfl
  rw [hb, relLoop_edges]

/-! ## Builder invariants (C3, C10) -/

/-- Node ids are the contiguous sequence `n0..n(k-1)` in creation order. -/
def nodeIdsOk (nodes : List GNode) : Prop :=
  nodes.map (·.id) = (List.range nodes.length).map nid

/-- Edge ids are the contiguous sequence `e0..e(m-1)` in creation order. -/
def edgeIdsOk (edges : List GEdge) : Prop :=
  edges.map (·.id) = (List.range edges.length).map eid

/-- A well-formed edge: its endpoints are ids of existing nodes with the
source created no later than the target, and it is one of the three edge
shapes the builder emits (sentence→clause at `0.8`, clause→keyphrase at
`0.6`, or clause→clause carrying a rounded similarity in `[0.14, 1]`). -/
def EdgeOk (nodes : List GNode) (e : GEdge) : Prop :=
  ∃ i j ni nj, i ≤ j ∧ nodes[i]? = some ni ∧ nodes[j]? = some nj ∧
    e.source = nid i ∧ e.target = nid j ∧
    ((ni.ntype = "sentence" ∧ nj.ntype = "clause" ∧ e.weight = 0.8) ∨
     (ni.ntype = "clause" ∧ nj.ntype = "keyphrase" ∧ e.weight = 0.6) ∨
     (ni.ntype = "clause" ∧ nj.ntype = "clause" ∧
       ∃ q : ℚ, 7/50 ≤ q ∧ q ≤ 1 ∧ e.weight = round3 q))

/-- A clause record points at an existing clause node. -/
def RecOk (nodes : List GNode) (r : ClauseRec) : Prop :=
  ∃ i ni, nodes[i]? = some ni ∧ r.id = nid i ∧ ni.ntype = "clause"

/-- Two clause records in creation order: the earlier one's node strictly
precedes the later one's, and both are clause nodes. -/
def RecPair (nodes : List GNode) (a b : ClauseRec) : Prop :=
  ∃ i j ni nj, i < j ∧ nodes[i]? = some ni ∧ nodes[j]? = some nj ∧
    a.id = nid i ∧ b.id = nid j ∧ ni.ntype = "clause" ∧ nj.ntype = "clause"

/-- The builder invariant. -/
def WF (st : BState) : Prop :=
  nodeIdsOk st.nodes ∧ edgeIdsOk st.edges ∧ (∀ e ∈ st.edges, EdgeOk st.nodes e) ∧
    (∀ r ∈ st.records, RecOk st.nodes r) ∧ st.records.Pairwise (RecPair st.nodes)

theorem EdgeOk_mono {nodes : List GNode} (dn : List GNode) {e : GEdge}
    (h : EdgeOk nodes e) : EdgeOk (nodes ++ dn) e := by
  obtain ⟨i, j, ni, nj, hij, hi, hj, rest⟩ := h
  exact ⟨i, j, ni, nj, hij,
    by rw [List.getElem?_append_left (List.getElem?_eq_some_iff.mp hi).1]; exact hi,
    by rw [List.getElem?_append_left (List.getElem?_eq_some_iff.mp hj).1]; exact hj, rest⟩

theorem RecOk_mono {nodes : List GNode} (dn : List GNode) {r : ClauseRec}
    (h : RecOk nodes r) : RecOk (nodes ++ dn) r := by
  obtain ⟨i, ni, hi, rest⟩ := h
  exact ⟨i, ni,
    by rw [List.getElem?_append_left (List.getElem?_eq_some_iff.mp hi).1]; exact hi, rest⟩

theorem RecPair_mono {nodes : List GNode} (dn : List GNode) {a b : ClauseRec}
    (h : RecPair nodes a b) : RecPair (nodes ++ dn) a b := by
  obtain ⟨i, j, ni, nj, hij, hi, hj, rest⟩ := h
  exact ⟨i, j, ni, nj, hij,
    by rw [List.getElem?_append_left (List.getElem?_eq_some_iff.mp hi).1]; exact hi,
    by rw [List.getElem?_append_left (List.getElem?_eq_some_iff.mp hj).1]; exact hj, rest⟩

theorem nodeIdsOk_append {nodes : List GNode} (h : nodeIdsOk nodes) (n : GNode)
    (hid : n.id = nid nodes.length) : nodeIdsOk (nodes ++ [n]) := by
  unfold nodeIdsOk at *
  rw [List.map_append, h, List.length_append, List.length_singleton, List.range_succ,
    List.map_append]
  simp [hid]

theorem edgeIdsOk_append {edges : List GEdge} (h : edgeIdsOk edges) (e : GEdge)
    (hid : e.id = eid edges.length) : edgeIdsOk (edges ++ [e]) := by
  unfold edgeIdsOk at *
  rw [List.map_append, h, List.length_append, List.length_singleton, List.range_succ,
    List.map_append]
  simp [hid]

theorem round3_08 : round3 (0.8 : ℚ) = 0.8 := by
  unfold round3 pyRound
  have h : ((0.8 : ℚ) * 10 ^ 3) = ((800 : ℤ) : ℚ) := by norm_num
  rw [h, roundHalfEven_intCast]
  norm_num

theorem round3_06 : round3 (0.6 : ℚ) = 0.6 := by
  unfold round3 pyRound
  have h : ((0.6 : ℚ) * 10 ^ 3) = ((600 : ℤ) : ℚ) := by norm_num
  rw [h, roundHalfEven_intCast]
  norm_num

/-- The relation-phase invariant: all node ids, edge ids and edge shapes are
well-formed (the records play no further role there). -/
def WFE (st : BState) : Prop :=
  nodeIdsOk st.nodes ∧ edgeIdsOk st.edges ∧ ∀ e ∈ st.edges, EdgeOk st.nodes e

theorem WFE_add_edge_rel (st : BState) (h : WFE st) (l r : ClauseRec) (rel : String) (q : ℚ)
    (hlr : RecPair st.nodes l r) (hq1 : 7/50 ≤ q) (hq2 : q ≤ 1) :
    WFE (add_edge st l.id r.id rel q) := by
  obtain ⟨hnode, hedge, hok⟩ := h
  obtain ⟨i, j, ni, nj, hij, hi, hj, hsa, hsb, hti, htj⟩ := hlr
  refine ⟨hnode, edgeIdsOk_append hedge _ rfl, ?_⟩
  intro e he
  rcases List.mem_append.mp he with he | he
  · exact hok e he
  · rcases List.mem_singleton.mp he with rfl
    exact ⟨i, j, ni, nj, le_of_lt hij, hi, hj, hsa, hsb,
      Or.inr (Or.inr ⟨hti, htj, q, hq1, hq2, rfl⟩)⟩

theorem classifyPair_wfe (l r : ClauseRec) (st : BState) (h : WFE st)
    (hlr : RecPair st.nodes l r) : WFE (classifyPair l r st) := by
  unfold classifyPair
  dsimp only
  have hle := jaccard_le_one l.tokens r.tokens
  split_ifs with h1 h2 h3 h4 h5
  · exact h
  · exact WFE_add_edge_rel st h l r _ _ hlr (by linarith) hle
  · exact WFE_add_edge_rel st h l r _ _ hlr (by linarith [h3.2]) hle
  · exact WFE_add_edge_rel st h l r _ _ hlr (by linarith [h4.2]) hle
  · exact WFE_add_edge_rel st h l r _ _ hlr (by linarith) hle
  · exact h

theorem relInner_wfe (l : ClauseRec) :
    ∀ (rs : List ClauseRec) (st : BState), WFE st → (∀ r ∈ rs, RecPair st.nodes l r) →
      WFE (relInner l rs st) := by
  intro rs
  induction rs with
  | nil => intro st h _; exact h
  | cons r rest ih =>
    intro st h hrs
    rw [relInner]
    refine ih (classifyPair l r st) (classifyPair_wfe l r st h (hrs r (List.mem_cons_self r rest))) ?_
    intro r' hr'
    rw [classifyPair_nodes]
    exact hrs r' (List.mem_cons_of_mem _ hr')

theorem relLoop_wfe :
    ∀ (records : List ClauseRec) (st : BState), WFE st →
      records.Pairwise (RecPair st.nodes) → WFE (relLoop records st) := by
  intro records
  induction records with
  | nil => intro st h _; exact h
  | cons l rest ih =>
    intro st h hpair
    obtain ⟨hhead, htail⟩ := List.pairwise_cons.mp hpair
    rw [relLoop]
    refine ih (relInner l rest st) (relInner_wfe l rest st h hhead) ?_
    rw [relInner_nodes]
    exact htail

/-- A node id known to name an existing node of a given type. -/
def NodeCert (nodes : List GNode) (theId ty : String) : Prop :=
  ∃ i ni, nodes[i]? = some ni ∧ theId = nid i ∧ ni.ntype = ty

theorem NodeCert_mono {nodes : List GNode} (dn : List GNode) {theId ty : String}
    (h : NodeCert nodes theId ty) : NodeCert (nodes ++ dn) theId ty := by
  obtain ⟨i, ni, hi, rest⟩ := h
  exact ⟨i, ni,
    by rw [List.getElem?_append_left (List.getElem?_eq_some_iff.mp hi).1]; exact hi, rest⟩

theorem add_node_eq (st : BState) (n t : String) (sIdx : Nat) (cIdx : Option Nat) :
    add_node st n t sIdx cIdx =
      (nid st.nodes.length,
        { st with nodes := st.nodes ++ [⟨nid st.nodes.length, n, t, sIdx, cIdx⟩] }) := rfl

theorem add_edge_eq (st : BState) (src dst rel : String) (w : ℚ) :
    add_edge st src dst rel w =
      { st with edges := st.edges ++ [⟨eid st.edges.length, src, dst, rel, round3 w⟩] } := rfl

theorem WF_append_node (st : BState) (h : WF st) (nn : GNode)
    (hid : nn.id = nid st.nodes.length) : WF { st with nodes := st.nodes ++ [nn] } := by
  obtain ⟨h1, h2, h3, h4, h5⟩ := h
  refine ⟨nodeIdsOk_append h1 nn hid, h2, ?_, ?_, ?_⟩
  · intro e he
    exact EdgeOk_mono [nn] (h3 e he)
  · intro r hr
    exact RecOk_mono [nn] (h4 r hr)
  · exact h5.imp (RecPair_mono [nn])

theorem WF_append_edge (st : BState) (h : WF st) (e : GEdge)
    (hid : e.id = eid st.edges.length) (hok : EdgeOk st.nodes e) :
    WF { st with edges := st.edges ++ [e] } := by
  obtain ⟨h1, h2, h3, h4, h5⟩ := h
  refine ⟨h1, edgeIdsOk_append h2 e hid, ?_, h4, h5⟩
  intro e' he'
  rcases List.mem_append.mp he' with he' | he'
  · exact h3 e' he'
  · rcases List.mem_singleton.mp he' with rfl
    exact hok

theorem WF_append_record (st : BState) (h : WF st) (r : ClauseRec)
    (hok : RecOk st.nodes r) (hlater : ∀ a ∈ st.records, RecPair st.nodes a r) :
    WF { st with records := st.records ++ [r] } := by
  obtain ⟨h1, h2, h3, h4, h5⟩ := h
  refine ⟨h1, h2, h3, ?_, ?_⟩
  · intro r' hr'
    rcases List.mem_append.mp hr' with hr' | hr'
    · exact h4 r' hr'
    · rcases List.mem_singleton.mp hr' with rfl
      exact hok
  · rw [List.pairwise_append]
    refine ⟨h5, List.pairwise_singleton _ _, ?_⟩
    intro a ha b hb
    rcases List.mem_singleton.mp hb with rfl
    exact hlater a ha

theorem addKeyphrases_wf (sIdx cIdx : Nat) (cId : String) :
    ∀ (ps : List String) (st : BState), WF st → NodeCert st.nodes cId "clause" →
      WF (addKeyphrases sIdx cIdx cId ps st) ∧
      (∃ dn, (addKeyphrases sIdx cIdx cId ps st).nodes = st.nodes ++ dn) ∧
      (addKeyphrases sIdx cIdx cId ps st).records = st.records := by
  intro ps
  induction ps with
  | nil =>
    intro st h _
    exact ⟨h, ⟨[], by simp [addKeyphrases]⟩, rfl⟩
  | cons p ps ih =>
    intro st h hc
    rw [addKeyphrases, add_node_eq]
    dsimp only
    set nn : GNode := ⟨nid st.nodes.length, "keyphrase", p, sIdx, some cIdx⟩ with hnn
    set st1 : BState := { st with nodes := st.nodes ++ [nn] } with hst1
    have h1 : WF st1 := WF_append_node st h nn rfl
    rw [add_edge_eq]
    set e : GEdge :=
      ⟨eid st1.edges.length, cId, nid st.nodes.length, "supports", round3 0.6⟩ with he
    set st2 : BState := { st1 with edges := st1.edges ++ [e] } with hst2
    have hok : EdgeOk st1.nodes e := by
      obtain ⟨i, ni, hi, hid, hty⟩ := hc
      refine ⟨i, st.nodes.length, ni, nn, ?_, ?_, ?_, hid, rfl, ?_⟩
      · exact le_of_lt (List.getElem?_eq_some_iff.mp hi).1
      · rw [hst1]
        dsimp only
        rw [List.getElem?_append_left (List.getElem?_eq_some_iff.mp hi).1]
        exact hi
      · rw [hst1]
        dsimp only
        exact List.getElem?_concat_length st.nodes nn
      · exact Or.inr (Or.inl ⟨hty, rfl, round3_06⟩)
    have h2 : WF st2 := WF_append_edge st1 h1 e rfl hok
    have hc2 : NodeCert st2.nodes cId "clause" := by
      have : NodeCert st1.nodes cId "clause" := by
        rw [hst1]
        dsimp only
        exact NodeCert_mono [nn] hc
      exact this
    obtain ⟨hwf, ⟨dn, hdn⟩, hrec⟩ := ih st2 h2 hc2
    refine ⟨hwf, ⟨[nn] ++ dn, ?_⟩, ?_⟩
    · rw [hdn]
      rw [hst2, hst1]
      dsimp only
      rw [List.append_assoc]
    · rw [hrec]

theorem addClause_wf (sId : String) (sIdx cIdx : Nat) (clause : String) (st : BState)
    (h : WF st) (hs : NodeCert st.nodes sId "sentence") :
    WF (addClause sId sIdx cIdx clause st) ∧
    (∃ dn, (addClause sId sIdx cIdx clause st).nodes = st.nodes ++ dn) := by
  rw [addClause, add_node_eq]
  dsimp only
  set nn : GNode := ⟨nid st.nodes.length, "clause", clause, sIdx, some cIdx⟩ with hnn
  set st1 : BState := { st with nodes := st.nodes ++ [nn] } with hst1
  have h1 : WF st1 := WF_append_node st h nn rfl
  rw [add_edge_eq]
  set e : GEdge :=
    ⟨eid st1.edges.length, sId, nid st.nodes.length, "elaborates", round3 0.8⟩ with he
  set st2 : BState := { st1 with edges := st1.edges ++ [e] } with hst2
  have hnlast : st1.nodes[st.nodes.length]? = some nn := by
    rw [hst1]
    dsimp only
    exact List.getElem?_concat_length st.nodes nn
  have hok : EdgeOk st1.nodes e := by
    obtain ⟨i, ni, hi, hid, hty⟩ := hs
    refine ⟨i, st.nodes.length, ni, nn, ?_, ?_, hnlast, hid, rfl, ?_⟩
    · exact le_of_lt (List.getElem?_eq_some_iff.mp hi).1
    · rw [hst1]
      dsimp only
      rw [List.getElem?_append_left (List.getElem?_eq_some_iff.mp hi).1]
      exact hi
    · exact Or.inl ⟨hty, rfl, round3_08⟩
  have h2 : WF st2 := WF_append_edge st1 h1 e rfl hok
  set rec : ClauseRec :=
    ⟨nid st.nodes.length, clause, clauseTokens clause,
      clauseNegated (clauseTokens clause), sIdx⟩ with hrec
  have hnlast2 : st2.nodes[st.nodes.length]? = some nn := hnlast
  have hrok : RecOk st2.nodes rec := ⟨st.nodes.length, nn, hnlast2, rfl, rfl⟩
  have hlater : ∀ a ∈ st2.records, RecPair st2.nodes a rec := by
    intro a ha
    have ha' : a ∈ st.records := ha
    obtain ⟨ia, nia, hia, hida, htya⟩ := h.2.2.2.1 a ha'
    refine ⟨ia, st.nodes.length, nia, nn, (List.getElem?_eq_some_iff.mp hia).1, ?_,
      hnlast2, hida, rfl, htya, rfl⟩
    have : st2.nodes = st.nodes ++ [nn] := rfl
    rw [this, List.getElem?_append_left (List.getElem?_eq_some_iff.mp hia).1]
    exact hia
  have h3 : WF { st2 with records := st2.records ++ [rec] } :=
    WF_append_record st2 h2 rec hrok hlater
  have hc : NodeCert ({ st2 with records := st2.records ++ [rec] } : BState).nodes
      (nid st.nodes.length) "clause" := ⟨st.nodes.length, nn, hnlast2, rfl, rfl⟩
  obtain ⟨hwf, ⟨dn, hdn⟩, _⟩ :=
    addKeyphrases_wf sIdx cIdx (nid st.nodes.length) (extract_keyphrases clause 3)
      { st2 with records := st2.records ++ [rec] } h3 hc
  refine ⟨hwf, ⟨[nn] ++ dn, ?_⟩⟩
  rw [hdn]
  show ({ st2 with records := st2.records ++ [rec] } : BState).nodes ++ dn =
    st.nodes ++ ([nn] ++ dn)
  have : ({ st2 with records := st2.records ++ [rec] } : BState).nodes =
      st.nodes ++ [nn] := rfl
  rw [this, List.append_assoc]

theorem addClauses_wf (sId : String) (sIdx : Nat) :
    ∀ (cs : List String) (cIdx : Nat) (st : BState), WF st →
      NodeCert st.nodes sId "sentence" →
      WF (addClauses sId sIdx cIdx cs st) ∧
      (∃ dn, (addClauses sId sIdx cIdx cs st).nodes = st.nodes ++ dn) := by
  intro cs
  induction cs with
  | nil =>
    intro cIdx st h _
    exact ⟨h, ⟨[], by simp [addClauses]⟩⟩
  | cons c cs ih =>
    intro cIdx st h hs
    rw [addClauses]
    obtain ⟨h1, ⟨dn1, hdn1⟩⟩ := addClause_wf sId sIdx cIdx c st h hs
    have hs1 : NodeCert (addClause sId sIdx cIdx c st).nodes sId "sentence" := by
      rw [hdn1]
      exact NodeCert_mono dn1 hs
    obtain ⟨h2, ⟨dn2, hdn2⟩⟩ := ih (cIdx + 1) (addClause sId sIdx cIdx c st) h1 hs1
    refine ⟨h2, ⟨dn1 ++ dn2, ?_⟩⟩
    rw [hdn2, hdn1, List.append_assoc]

theorem addSentence_wf (sIdx : Nat) (sentence : String) (st : BState) (h : WF st) :
    WF (addSentence sIdx sentence st) ∧
    (∃ dn, (addSentence sIdx sentence st).nodes = st.nodes ++ dn) := by
  rw [addSentence, add_node_eq]
  dsimp only
  set nn : GNode := ⟨nid st.nodes.length, "sentence", sentence, sIdx, none⟩ with hnn
  set st1 : BState := { st with nodes := st.nodes ++ [nn] } with hst1
  have h1 : WF st1 := WF_append_node st h nn rfl
  have hs : NodeCert st1.nodes (nid st.nodes.length) "sentence" := by
    refine ⟨st.nodes.length, nn, ?_, rfl, rfl⟩
    rw [hst1]
    dsimp only
    exact List.getElem?_concat_length st.nodes nn
  obtain ⟨h2, ⟨dn, hdn⟩⟩ := addClauses_wf (nid st.nodes.length) sIdx
    (split_clauses sentence) 0 st1 h1 hs
  refine ⟨h2, ⟨[nn] ++ dn, ?_⟩⟩
  rw [hdn, hst1]
  dsimp only
  rw [List.append_assoc]

theorem addSentences_wf :
    ∀ (sents : List String) (sIdx : Nat) (st : BState), WF st →
      WF (addSentences sIdx sents st) := by
  intro sents
  induction sents with
  | nil => intro sIdx st h; exact h
  | cons s rest ih =>
    intro sIdx st h
    rw [addSentences]
    exact ih (sIdx + 1) (addSentence sIdx s st) (addSentence_wf sIdx s st h).1

theorem WF_empty : WF ⟨[], [], []⟩ :=
  ⟨rfl, rfl, by simp, by simp, List.Pairwise.nil⟩

theorem build_wfe (t : ObservableTrace) :
    WFE (relLoop (addSentences 0 (split_sentences t.response) ⟨[], [], []⟩).records
      (addSentences 0 (split_sentences t.response) ⟨[], [], []⟩)) := by
  have hwf : WF (addSentences 0 (split_sentences t.response) ⟨[], [], []⟩) :=
    addSentences_wf (split_sentences t.response) 0 ⟨[], [], []⟩ WF_empty
  exact relLoop_wfe _ _ ⟨hwf.1, hwf.2.1, hwf.2.2.1⟩ hwf.2.2.2.2

/-! ## C8: the contradiction scenario -/

/-- The specification's contradiction scenario trace. -/
def c8Trace : ObservableTrace :=
  ⟨"What should the device do?",
   "The device should log the signal. However, the device must not log the signal.", []⟩

/-- The builder state after the structural phase of the scenario. -/
def c8St1 : BState := addSentences 0 (split_sentences c8Trace.response) ⟨[], [], []⟩

theorem c8_jaccard :
    jaccard (clauseTokens "The device should log the signal.")
      (clauseTokens "the device must not log the signal.") = 1/2 := by
  have hne1 : ¬(clauseTokens "The device should log the signal." = ∅ ∨
      clauseTokens "the device must not log the signal." = ∅) := by
    rintro (h | h)
    · have h4 : (clauseTokens "The device should log the signal.").card = 4 := by decide
      rw [h] at h4
      simp at h4
    · have h5 : (clauseTokens "the device must not log the signal.").card = 5 := by decide
      rw [h] at h5
      simp at h5
  have hu : (clauseTokens "The device should log the signal." ∪
      clauseTokens "the device must not log the signal.").card = 6 := by decide
  have hi : (clauseTokens "The device should log the signal." ∩
      clauseTokens "the device must not log the signal.").card = 3 := by decide
  unfold jaccard
  rw [if_neg hne1, if_neg (by rw [hu]; norm_num), hi, hu]
  norm_num

theorem round3_half : round3 ((1 : ℚ)/2) = 1/2 := by
  unfold round3 pyRound
  rw [show ((1 : ℚ)/2 * 10 ^ 3) = ((500 : ℤ) : ℚ) from by norm_num, roundHalfEven_intCast]
  norm_num

/-- The two clause records of the scenario, written out. -/
theorem c8_records : c8St1.records =
    [⟨"n1", "The device should log the signal.",
       clauseTokens "The device should log the signal.",
       clauseNegated (clauseTokens "The device should log the signal."), 0⟩,
     ⟨"n6", "the device must not log the signal.",
       clauseTokens "the device must not log the signal.",
       clauseNegated (clauseTokens "the device must not log the signal."), 1⟩] := rfl

/-- The classification of the scenario's single clause pair is `contradicts`. -/
theorem c8_classification :
    (ordPairs c8St1.records).filterMap (fun p => relationRuleSpec p.1 p.2) =
      [("n1", "n6", "contradicts", round3 ((1 : ℚ)/2))] := by
  have hn1 : clauseNegated (clauseTokens "The device should log the signal.") = false := by
    decide
  have hn2 : clauseNegated (clauseTokens "the device must not log the signal.") = true := by
    decide
  rw [c8_records]
  have hclass : relationRuleSpec
      ⟨"n1", "The device should log the signal.",
        clauseTokens "The device should log the signal.",
        clauseNegated (clauseTokens "The device should log the signal."), 0⟩
      ⟨"n6", "the device must not log the signal.",
        clauseTokens "the device must not log the signal.",
        clauseNegated (clauseTokens "the device must not log the signal."), 1⟩ =
      some ("n1", "n6", "contradicts", round3 ((1 : ℚ)/2)) := by
    unfold relationRuleSpec
    dsimp only
    rw [c8_jaccard, hn1, hn2]
    rw [if_neg (by norm_num), if_neg (by norm_num), if_pos ⟨by decide, by norm_num⟩]
  simp [ordPairs, hclass]

/-- C8.  On the scenario trace, the pipeline yields two sentences whose sole
clauses are negated as `[false, true]`, the two clauses' filtered token sets
overlap with Jaccard similarity `1/2 ≥ 0.22` while their negation flags
differ, the graph contains the `contradicts` edge from the first clause node
`n1` to the second clause node `n6`, and the metrics report exactly one
contradiction. -/
theorem c8_contradiction_scenario :
    (split_sentences c8Trace.response).length = 2 ∧
    c8St1.records.map (·.text) =
      ["The device should log the signal.", "the device must not log the signal."] ∧
    c8St1.records.map (·.negated) = [false, true] ∧
    ((0.22 : ℚ) ≤ jaccard (clauseTokens "The device should log the signal.")
        (clauseTokens "the device must not log the signal.")) ∧
    (∃ e ∈ (build_thinking_geometry c8Trace).1.edges,
      e.source = "n1" ∧ e.target = "n6" ∧ e.relation = "contradicts") ∧
    (build_thinking_geometry c8Trace).2.contradiction_count = 1 := by
  have hedges : (build_thinking_geometry c8Trace).1.edges.map stripId =
      c8St1.edges.map stripId ++
        (ordPairs c8St1.records).filterMap (fun p => relationRuleSpec p.1 p.2) := by
    have hb : (build_thinking_geometry c8Trace).1.edges =
        (relLoop c8St1.records c8St1).edges := rfl
    rw [hb, relLoop_edges]
  rw [c8_classification] at hedges
  have hstruct : c8St1.edges.map stripId =
      [("n0", "n1", "elaborates", round3 0.8),
       ("n1", "n2", "supports", round3 0.6),
       ("n1", "n3", "supports", round3 0.6),
       ("n1", "n4", "supports", round3 0.6),
       ("n5", "n6", "elaborates", round3 0.8),
       ("n6", "n7", "supports", round3 0.6),
       ("n6", "n8", "supports", round3 0.6),
       ("n6", "n9", "supports", round3 0.6)] := rfl
  rw [hstruct] at hedges
  refine ⟨by decide, by decide, by decide, ?_, ?_, ?_⟩
  · rw [c8_jaccard]
    norm_num
  · have hmem : ("n1", "n6", "contradicts", round3 ((1 : ℚ)/2)) ∈
        (build_thinking_geometry c8Trace).1.edges.map stripId := by
      rw [hedges]
      exact List.mem_append_right _ (List.mem_singleton.mpr rfl)
    obtain ⟨e, he, heq⟩ := List.mem_map.mp hmem
    refine ⟨e, he, ?_, ?_, ?_⟩
    · exact congrArg (fun p => p.1) heq
    · exact congrArg (fun p => p.2.1) heq
    · exact congrArg (fun p => p.2.2.1) heq
  · have hcount : (build_thinking_geometry c8Trace).2.contradiction_count =
        ((build_thinking_geometry c8Trace).1.edges.countP
          (fun e => decide (e.relation = "contradicts"))) := by
      have h1 : (build_thinking_geometry c8Trace).2.contradiction_count =
          (((build_thinking_geometry c8Trace).1.edges.filter
            (fun e => decide (e.relation = "contradicts"))).map (·.id)).length := rfl
      rw [h1, List.length_map]
      exact (List.countP_eq_length_filter _ _).symm
    have h2 : ((build_thinking_geometry c8Trace).1.edges.map stripId).countP
        (fun p => decide (p.2.2.1 = "contradicts")) =
        ((build_thinking_geometry c8Trace).1.edges.countP
          (fun e => decide (e.relation = "contradicts"))) :=
      List.countP_map _ stripId _
    rw [hcount, ← h2, hedges]
    decide

/-! ## C3 and C10: graph invariants -/

/-- C3.  In every graph the pipeline produces, node ids are the contiguous
gap-free sequence `n0..n(k-1)` in creation order, edge ids are the contiguous
sequence `e0..e(m-1)` in creation order, and every edge's source node was
created no later than its target node. -/
theorem c3_ids_and_forward_edges (t : ObservableTrace) :
    (build_thinking_geometry t).1.nodes.map (·.id) =
      (List.range (build_thinking_geometry t).1.nodes.length).map nid ∧
    (build_thinking_geometry t).1.edges.map (·.id) =
      (List.range (build_thinking_geometry t).1.edges.length).map eid ∧
    ∀ e ∈ (build_thinking_geometry t).1.edges, ∃ i j, i ≤ j ∧
      i < (build_thinking_geometry t).1.nodes.length ∧
      j < (build_thinking_geometry t).1.nodes.length ∧
      e.source = nid i ∧ e.target = nid j := by
  have h := build_wfe t
  refine ⟨h.1, h.2.1, ?_⟩
  intro e he
  obtain ⟨i, j, ni, nj, hij, hi, hj, hs, ht, _⟩ := h.2.2 e he
  exact ⟨i, j, hij, (List.getElem?_eq_some_iff.mp hi).1,
    (List.getElem?_eq_some_iff.mp hj).1, hs, ht⟩

/-- A one-sentence trace for concrete instantiations: its graph has the
sentence node `n0`, the clause node `n1`, two keyphrase nodes, and no
relation edges (a single clause admits no pairs). -/
def oneTrace : ObservableTrace := ⟨"p", "Hello world.", []⟩

theorem oneTrace_edges : (build_thinking_geometry oneTrace).1.edges =
    [⟨"e0", "n0", "n1", "elaborates", round3 0.8⟩,
     ⟨"e1", "n1", "n2", "supports", round3 0.6⟩,
     ⟨"e2", "n1", "n3", "supports", round3 0.6⟩] := rfl

/-- Witness for C3 at the one-sentence trace and its first edge. -/
theorem c3_witness :
    ∃ i j, i ≤ j ∧
      i < (build_thinking_geometry oneTrace).1.nodes.length ∧
      j < (build_thinking_geometry oneTrace).1.nodes.length ∧
      (⟨"e0", "n0", "n1", "elaborates", round3 0.8⟩ : GEdge).source = nid i ∧
      (⟨"e0", "n0", "n1", "elaborates", round3 0.8⟩ : GEdge).target = nid j :=
  (c3_ids_and_forward_edges oneTrace).2.2 ⟨"e0", "n0", "n1", "elaborates", round3 0.8⟩
    (by rw [oneTrace_edges]; exact List.mem_cons_self _ _)

/-- C10.  Every edge weight is strictly positive and at most `1`: each edge is
either a sentence→clause edge of weight `0.8`, a clause→keyphrase edge of
weight `0.6`, or a clause→clause relation edge carrying a Jaccard similarity
of at least `0.14` (i.e. `7/50`) rounded to three decimals, which keeps the
weight at least `0.14`; no zero-weight edge ever occurs. -/
theorem c10_edge_weights (t : ObservableTrace) :
    ∀ e ∈ (build_thinking_geometry t).1.edges,
      (0 < e.weight ∧ e.weight ≤ 1) ∧
      ∃ i j ni nj, (build_thinking_geometry t).1.nodes[i]? = some ni ∧
        (build_thinking_geometry t).1.nodes[j]? = some nj ∧
        e.source = nid i ∧ e.target = nid j ∧
        ((ni.ntype = "sentence" ∧ nj.ntype = "clause" ∧ e.weight = 0.8) ∨
         (ni.ntype = "clause" ∧ nj.ntype = "keyphrase" ∧ e.weight = 0.6) ∨
         (ni.ntype = "clause" ∧ nj.ntype = "clause" ∧
           ∃ q : ℚ, 7/50 ≤ q ∧ q ≤ 1 ∧ e.weight = round3 q ∧ 7/50 ≤ e.weight)) := by
  intro e he
  obtain ⟨i, j, ni, nj, _, hi, hj, hs, ht, hcase⟩ := (build_wfe t).2.2 e he
  refine ⟨?_, i, j, ni, nj, hi, hj, hs, ht, ?_⟩
  · rcases hcase with ⟨_, _, hw⟩ | ⟨_, _, hw⟩ | ⟨_, _, q, hq1, hq2, hw⟩
    · rw [hw]
      constructor <;> norm_num
    · rw [hw]
      constructor <;> norm_num
    · rw [hw]
      have hg := round3_ge_threshold hq1
      have hl := round3_le_one hq2
      constructor
      · linarith
      · exact hl
  · rcases hcase with h | h | ⟨ht1, ht2, q, hq1, hq2, hw⟩
    · exact Or.inl h
    · exact Or.inr (Or.inl h)
    · exact Or.inr (Or.inr ⟨ht1, ht2, q, hq1, hq2, hw, hw ▸ round3_ge_threshold hq1⟩)

/-- Witness for C10 at the one-sentence trace and its first edge. -/
theorem c10_witness :
    (0 < (⟨"e0", "n0", "n1", "elaborates", round3 0.8⟩ : GEdge).weight ∧
      (⟨"e0", "n0", "n1", "elaborates", round3 0.8⟩ : GEdge).weight ≤ 1) ∧
    ∃ i j ni nj, (build_thinking_geometry oneTrace).1.nodes[i]? = some ni ∧
      (build_thinking_geometry oneTrace).1.nodes[j]? = some nj ∧
      (⟨"e0", "n0", "n1", "elaborates", round3 0.8⟩ : GEdge).source = nid i ∧
      (⟨"e0", "n0", "n1", "elaborates", round3 0.8⟩ : GEdge).target = nid j ∧
      ((ni.ntype = "sentence" ∧ nj.ntype = "clause" ∧
          (⟨"e0", "n0", "n1", "elaborates", round3 0.8⟩ : GEdge).weight = 0.8) ∨
       (ni.ntype = "clause" ∧ nj.ntype = "keyphrase" ∧
          (⟨"e0", "n0", "n1", "elaborates", round3 0.8⟩ : GEdge).weight = 0.6) ∨
       (ni.ntype = "clause" ∧ nj.ntype = "clause" ∧
         ∃ q : ℚ, 7/50 ≤ q ∧ q ≤ 1 ∧
           (⟨"e0", "n0", "n1", "elaborates", round3 0.8⟩ : GEdge).weight = round3 q ∧
           7/50 ≤ (⟨"e0", "n0", "n1", "elaborates", round3 0.8⟩ : GEdge).weight)) :=
  c10_edge_weights oneTrace ⟨"e0", "n0", "n1", "elaborates", round3 0.8⟩
    (by rw [oneTrace_edges]; exact List.mem_cons_self _ _)

/-! ## C2 and C7: the loader's error surface -/

/-- Did the computation raise `TraceParseError`? -/
def isTraceParse {α : Type} : Except PyError α → Bool
  | .error (.traceParse _) => true
  | _ => false

/-- Did the computation return normally? -/
def isOkE {α : Type} : Except PyError α → Bool
  | .ok _ => true
  | _ => false

/-- The number of lines of a JSONL document that parse as JSON (the
specification's "valid records"). -/
def validJsonRecordCount (content : String) : Nat :=
  (recordLines content).countP (fun line => isOkE (jsonLoads line))

theorem isTraceParse_bind {α β : Type} (x : Except PyError α) (f : α → Except PyError β)
    (hx : isTraceParse x = false) (hf : ∀ a, isTraceParse (f a) = false) :
    isTraceParse (x >>= f) = false := by
  cases x with
  | ok a => simpa [Bind.bind, Except.bind] using hf a
  | error e =>
    cases e with
    | traceParse msg => simp [isTraceParse] at hx
    | jsonDecode msg => rfl
    | attrError msg => rfl
    | typeError msg => rfl

theorem isTraceParse_map {α β : Type} (x : Except PyError α) (f : α → β)
    (hx : isTraceParse x = false) : isTraceParse (x.map f) = false := by
  cases x with
  | ok a => rfl
  | error e =>
    cases e with
    | traceParse msg => simp [isTraceParse] at hx
    | jsonDecode msg => rfl
    | attrError msg => rfl
    | typeError msg => rfl

theorem jsonLoads_noTP (s : String) : isTraceParse (jsonLoads s) = false := by
  unfold jsonLoads
  cases parseJV (2 * s.length + 16) s.data with
  | none => rfl
  | some p =>
    cases p with
    | mk v rest =>
      dsimp only
      split_ifs <;> rfl

theorem pyDictGet_noTP (v : JVal) (key : String) (dflt : JVal) :
    isTraceParse (pyDictGet v key dflt) = false := by
  cases v <;> rfl

theorem pyStripV_noTP (v : JVal) : isTraceParse (pyStripV v) = false := by
  cases v <;> rfl

theorem pyJoinStrs_noTP : ∀ vs : List JVal, isTraceParse (pyJoinStrs vs) = false := by
  intro vs
  induction vs with
  | nil => rfl
  | cons v rest ih =>
    cases v with
    | str s => exact isTraceParse_map _ _ ih
    | null => rfl
    | bool b => rfl
    | num n => rfl
    | arr xs => rfl
    | obj kvs => rfl

theorem pyJoin_noTP (sep : String) (vs : List JVal) :
    isTraceParse (pyJoin sep vs) = false :=
  isTraceParse_map _ _ (pyJoinStrs_noTP vs)

theorem pyIter_noTP (v : JVal) : isTraceParse (pyIter v) = false := by
  cases v <;> rfl

theorem collectResponses_noTP : ∀ rs : List JVal,
    isTraceParse (collectResponses rs) = false := by
  intro rs
  induction rs with
  | nil => rfl
  | cons r rest ih =>
    refine isTraceParse_bind _ _ (pyDictGet_noTP r "response" (.str "")) ?_
    intro v
    exact isTraceParse_bind _ _ ih (fun _ => rfl)

theorem collectEvents_noTP : ∀ rs : List JVal,
    isTraceParse (collectEvents rs) = false := by
  intro rs
  induction rs with
  | nil => rfl
  | cons r rest ih =>
    refine isTraceParse_bind _ _ (pyDictGet_noTP r "events" (.arr [])) ?_
    intro ev
    refine isTraceParse_bind _ _ (pyIter_noTP ev) ?_
    intro items
    exact isTraceParse_bind _ _ ih (fun _ => rfl)

theorem mergeRecords_cons_noTP (r0 : JVal) (rest : List JVal) :
    isTraceParse (mergeRecords (r0 :: rest)) = false := by
  rw [mergeRecords]
  refine isTraceParse_bind _ _ (pyDictGet_noTP r0 "prompt" (.str "")) ?_
  intro p
  refine isTraceParse_bind _ _ (collectResponses_noTP _) ?_
  intro respVals
  refine isTraceParse_bind _ _ (pyJoin_noTP "\n" respVals) ?_
  intro resp
  refine isTraceParse_bind _ _ (collectEvents_noTP _) ?_
  intro evs
  refine isTraceParse_bind _ _ (pyStripV_noTP p) ?_
  intro pstr
  rfl

theorem parseRecords_noTP : ∀ lines : List String,
    isTraceParse (parseRecords lines) = false := by
  intro lines
  induction lines with
  | nil => rfl
  | cons line rest ih =>
    refine isTraceParse_bind _ _ (jsonLoads_noTP line) ?_
    intro v
    exact isTraceParse_bind _ _ ih (fun _ => rfl)

theorem parseRecords_length : ∀ (lines : List String) (vs : List JVal),
    parseRecords lines = .ok vs → vs.length = lines.length := by
  intro lines
  induction lines with
  | nil =>
    intro vs h
    cases h
    rfl
  | cons line rest ih =>
    intro vs h
    rw [parseRecords] at h
    cases hj : jsonLoads line with
    | error e => rw [hj] at h; simp [Bind.bind, Except.bind] at h
    | ok v =>
      rw [hj] at h
      cases hr : parseRecords rest with
      | error e => rw [hr] at h; simp [Bind.bind, Except.bind] at h
      | ok vrest =>
        rw [hr] at h
        simp only [Bind.bind, Except.bind] at h
        cases h
        simp [ih vrest hr]

/-- C2 counterexample.  The one-line JSONL document `nope` has zero valid
records — the condition under which the claim says `TraceParseError` is
raised — yet `load_trace` neither raises `TraceParseError` nor returns a
trace: it surfaces a JSON decoding error. -/
theorem c2_counterexample :
    validJsonRecordCount "nope" = 0 ∧
    isTraceParse (load_trace "trace.jsonl" "nope") = false ∧
    isOkE (load_trace "trace.jsonl" "nope") = false := by
  decide

theorem recordLines_eq_nil_iff (content : String) :
    recordLines content = [] ↔ ∀ raw ∈ pySplitlines content, pyStrip raw = "" := by
  unfold recordLines
  rw [List.filterMap_eq_nil_iff]
  constructor
  · intro h raw hraw
    have hb := h raw hraw
    unfold blankStripped at hb
    by_cases hx : pyStrip raw = ""
    · exact hx
    · rw [if_neg hx] at hb
      cases hb
  · intro h raw hraw
    unfold blankStripped
    rw [if_pos (h raw hraw)]

/-- C2 amended.  `load_trace` raises `TraceParseError` exactly when the
line-delimited input consists only of blank lines, or when the input is in
the text format (neither `.jsonl` nor `.json`) and the `prompt:`/`response:`
section search fails; on malformed JSON (and on records of the wrong shape)
it instead surfaces JSON decoding, attribute or type errors. -/
theorem c2_amended (path content : String) :
    isTraceParse (load_trace path content) = true ↔
      (asciiLower (pathSuffix path) = ".jsonl" ∧
        ∀ raw ∈ pySplitlines content, pyStrip raw = "") ∨
      (asciiLower (pathSuffix path) ≠ ".jsonl" ∧ asciiLower (pathSuffix path) ≠ ".json" ∧
        (prompt_search content = none ∨ response_search content = none)) := by
  unfold load_trace
  dsimp only
  by_cases h1 : asciiLower (pathSuffix path) = ".jsonl"
  · rw [if_pos h1]
    cases hL : recordLines content with
    | nil =>
      constructor
      · intro _
        exact Or.inl ⟨h1, (recordLines_eq_nil_iff content).mp hL⟩
      · intro _
        rfl
    | cons l0 ls =>
      have hfalse : isTraceParse
          (parseRecords (l0 :: ls) >>= fun records => mergeRecords records) = false := by
        cases hp : parseRecords (l0 :: ls) with
        | error e =>
          have hn := parseRecords_noTP (l0 :: ls)
          rw [hp] at hn
          cases e with
          | traceParse msg => simp [isTraceParse] at hn
          | jsonDecode msg => rfl
          | attrError msg => rfl
          | typeError msg => rfl
        | ok vs =>
          have hlen := parseRecords_length _ _ hp
          cases vs with
          | nil => simp at hlen
          | cons v vrest => exact mergeRecords_cons_noTP v vrest
      constructor
      · intro htp
        rw [hfalse] at htp
        exact Bool.noConfusion htp
      · rintro (⟨_, hblank⟩ | ⟨hne, _, _⟩)
        · have := (recordLines_eq_nil_iff content).mpr hblank
          rw [hL] at this
          cases this
        · exact absurd h1 hne
  · rw [if_neg h1]
    by_cases h2 : asciiLower (pathSuffix path) = ".json"
    · rw [if_pos h2]
      have hfalse : isTraceParse (jsonLoads content >>= fun data =>
          pyDictGet data "prompt" (.str "") >>= fun p =>
          pyDictGet data "response" (.str "") >>= fun r =>
          pyDictGet data "events" (.arr []) >>= fun ev =>
          pyIter ev >>= fun items =>
          Except.ok (⟨pyStrip (pyStr p), pyStrip (pyStr r), items.filter isObjV⟩ :
            ObservableTrace)) = false := by
        refine isTraceParse_bind _ _ (jsonLoads_noTP content) ?_
        intro data
        refine isTraceParse_bind _ _ (pyDictGet_noTP data "prompt" (.str "")) ?_
        intro p
        refine isTraceParse_bind _ _ (pyDictGet_noTP data "response" (.str "")) ?_
        intro r
        refine isTraceParse_bind _ _ (pyDictGet_noTP data "events" (.arr [])) ?_
        intro ev
        refine isTraceParse_bind _ _ (pyIter_noTP ev) ?_
        intro items
        rfl
      constructor
      · intro htp
        rw [hfalse] at htp
        exact Bool.noConfusion htp
      · rintro (⟨hx, _⟩ | ⟨_, hx2, _⟩)
        · exact absurd hx h1
        · exact absurd h2 hx2
    · rw [if_neg h2]
      cases hp : prompt_search content with
      | none =>
        cases hr : response_search content with
        | none =>
          constructor
          · intro _
            exact Or.inr ⟨h1, h2, Or.inl rfl⟩
          · intro _
            rfl
        | some rm =>
          constructor
          · intro _
            exact Or.inr ⟨h1, h2, Or.inl rfl⟩
          · intro _
            rfl
      | some pm =>
        cases hr : response_search content with
        | none =>
          constructor
          · intro _
            exact Or.inr ⟨h1, h2, Or.inr rfl⟩
          · intro _
            rfl
        | some rm =>
          have hfalse : isTraceParse (match events_search content with
              | some ejson =>
                jsonLoads ejson >>= fun loaded =>
                  Except.ok (⟨pyStrip pm, pyStrip rm,
                    (match loaded with | JVal.arr xs => xs.filter isObjV | _ => [])⟩ :
                      ObservableTrace)
              | none => Except.ok ⟨pyStrip pm, pyStrip rm, []⟩) = false := by
            cases events_search content with
            | none => rfl
            | some ejson =>
              refine isTraceParse_bind _ _ (jsonLoads_noTP ejson) ?_
              intro loaded
              rfl
          constructor
          · intro htp
            rw [hfalse] at htp
            exact Bool.noConfusion htp
          · rintro (⟨hx, _⟩ | ⟨_, _, hor⟩)
            · exact absurd hx h1
            · rcases hor with h | h
              · exact Option.noConfusion h
              · exact Option.noConfusion h

/-- Witness for C2 amended at concrete inputs: a blank `.jsonl` document does
raise `TraceParseError`, and a text document with both sections does not. -/
theorem c2_witness :
    isTraceParse (load_trace "trace.jsonl" " \n ") = true ∧
    isTraceParse (load_trace "trace.txt" "prompt: a\nresponse: b") = false :=
  ⟨(c2_amended "trace.jsonl" " \n ").mpr (Or.inl ⟨by decide, by decide⟩),
   by
    have h := c2_amended "trace.txt" "prompt: a\nresponse: b"
    have hRHS : ¬ ((asciiLower (pathSuffix "trace.txt") = ".jsonl" ∧
        ∀ raw ∈ pySplitlines "prompt: a\nresponse: b", pyStrip raw = "") ∨
      (asciiLower (pathSuffix "trace.txt") ≠ ".jsonl" ∧
        asciiLower (pathSuffix "trace.txt") ≠ ".json" ∧
        (prompt_search "prompt: a\nresponse: b" = none ∨
          response_search "prompt: a\nresponse: b" = none))) := by
      rintro (⟨hs, _⟩ | ⟨_, _, hor⟩)
      · exact absurd hs (by decide)
      · rcases hor with hbad | hbad
        · exact absurd hbad (by decide)
        · exact absurd hbad (by decide)
    cases hv : isTraceParse (load_trace "trace.txt" "prompt: a\nresponse: b") with
    | false => rfl
    | true => exact absurd (h.mp hv) hRHS⟩

/-- C7 counterexample.  On a three-record JSONL document, `load_trace` strips
the first record's prompt, skips the empty response field when joining, and
drops the non-dict event — so the trace is not the plain first prompt, the
plain newline-join of all responses, or the full events concatenation the
claim describes. -/
theorem c7_counterexample :
    load_trace "trace.jsonl"
        "\x7b\"prompt\": \" x \", \"response\": \"a\", \"events\": [1, \x7b\"k\": 1\x7d]\x7d\n\x7b\"response\": \"\"\x7d\n\x7b\"response\": \"b\"\x7d" =
      .ok ⟨"x", "a\nb", [JVal.obj [("k", JVal.num 1)]]⟩ ∧
    ("x" : String) ≠ " x " ∧ ("a\nb" : String) ≠ "a\n\nb" :=
  ⟨rfl, by decide, by decide⟩

/-- A well-shaped JSONL record: a string prompt, a string response and a list
of events, as the loader's merge expects them. -/
structure JRecord where
  prompt : String
  response : String
  events : List JVal

/-- The JSON object a well-shaped record denotes. -/
def JRecord.toJVal (r : JRecord) : JVal :=
  .obj [("prompt", .str r.prompt), ("response", .str r.response), ("events", .arr r.events)]

theorem pyJoinStrs_map_str : ∀ ss : List String,
    pyJoinStrs (ss.map JVal.str) = .ok ss := by
  intro ss
  induction ss with
  | nil => rfl
  | cons s rest ih =>
    rw [List.map_cons, pyJoinStrs, ih]
    rfl

theorem collectResponses_toJVal : ∀ rs : List JRecord,
    collectResponses (rs.map JRecord.toJVal) =
      .ok ((rs.map (fun r => JVal.str r.response)).filter pyTruthy) := by
  intro rs
  induction rs with
  | nil => rfl
  | cons r rest ih =>
    rw [List.map_cons, collectResponses]
    have hget : pyDictGet r.toJVal "response" (.str "") = .ok (.str r.response) := rfl
    rw [hget]
    simp only [Bind.bind, Except.bind, ih, List.map_cons, List.filter_cons]

theorem collectEvents_toJVal : ∀ rs : List JRecord,
    collectEvents (rs.map JRecord.toJVal) = .ok ((rs.map (·.events)).flatten) := by
  intro rs
  induction rs with
  | nil => rfl
  | cons r rest ih =>
    rw [List.map_cons, collectEvents]
    have hget : pyDictGet r.toJVal "events" (.arr []) = .ok (.arr r.events) := rfl
    rw [hget]
    simp only [Bind.bind, Except.bind, ih]
    rfl

theorem mergeRecords_toJVal (r0 : JRecord) (rest : List JRecord) :
    mergeRecords ((r0 :: rest).map JRecord.toJVal) =
      .ok ⟨pyStrip r0.prompt,
        pyStrip (String.intercalate "\n"
          (((r0 :: rest).map (·.response)).filter (fun s => s ≠ ""))),
        (((r0 :: rest).map (·.events)).flatten).filter isObjV⟩ := by
  rw [List.map_cons, mergeRecords]
  have hget : pyDictGet r0.toJVal "prompt" (.str "") = .ok (.str r0.prompt) := rfl
  have hresp := collectResponses_toJVal (r0 :: rest)
  have hev := collectEvents_toJVal (r0 :: rest)
  rw [List.map_cons] at hresp hev
  have h1 : (fun (r : JRecord) => JVal.str r.response) =
      (JVal.str ∘ (fun r : JRecord => r.response)) := rfl
  have hfilter : ((r0 :: rest).map (fun r => JVal.str r.response)).filter pyTruthy =
      (((r0 :: rest).map (·.response)).filter (fun s => s ≠ "")).map JVal.str := by
    rw [h1, ← List.map_map, List.filter_map]
    rfl
  have hstrip : pyStripV (JVal.str r0.prompt) = .ok (pyStrip r0.prompt) := rfl
  simp only [Bind.bind, Except.bind, hget, hresp, hfilter, pyJoin, pyJoinStrs_map_str,
    Except.map, hev, hstrip]

/-- C7 amended.  For line-delimited input whose non-blank lines parse to
well-shaped records, the trace is: the first record's prompt, stripped; the
newline-join of the records' non-empty response fields, stripped; and the
concatenation of the records' events lists keeping only the object-valued
entries.  Input with no non-blank lines raises `TraceParseError`. -/
theorem c7_amended :
    (∀ (r0 : JRecord) (rest : List JRecord) (path content : String),
      asciiLower (pathSuffix path) = ".jsonl" →
      parseRecords (recordLines content) = .ok ((r0 :: rest).map JRecord.toJVal) →
      load_trace path content =
        .ok ⟨pyStrip r0.prompt,
          pyStrip (String.intercalate "\n"
            (((r0 :: rest).map (·.response)).filter (fun s => s ≠ ""))),
          (((r0 :: rest).map (·.events)).flatten).filter isObjV⟩) ∧
    (∀ path content : String,
      asciiLower (pathSuffix path) = ".jsonl" →
      (∀ raw ∈ pySplitlines content, pyStrip raw = "") →
      isTraceParse (load_trace path content) = true) := by
  constructor
  · intro r0 rest path content hsuf hparse
    unfold load_trace
    dsimp only
    rw [if_pos hsuf, hparse]
    simp only [Bind.bind, Except.bind]
    exact mergeRecords_toJVal r0 rest
  · intro path content hsuf hblank
    unfold load_trace
    dsimp only
    rw [if_pos hsuf, (recordLines_eq_nil_iff content).mpr hblank]
    rfl

/-- Witness for C7 amended: a concrete single-record document merges as
described, and a blank document raises `TraceParseError`. -/
theorem c7_witness :
    load_trace "w.jsonl"
        "\x7b\"prompt\": \" hi \", \"response\": \"yo\", \"events\": []\x7d" =
      .ok ⟨"hi", "yo", []⟩ ∧
    isTraceParse (load_trace "w.jsonl" "  ") = true := by
  constructor
  · have h := c7_amended.1 ⟨" hi ", "yo", []⟩ [] "w.jsonl"
      "\x7b\"prompt\": \" hi \", \"response\": \"yo\", \"events\": []\x7d" (by decide) (by rfl)
    exact h.trans rfl
  · exact c7_amended.2 "w.jsonl" "  " (by decide) (by decide)

/-! ## C9: determinism of the pipeline -/

/-- C9.  The whole pipeline is embedded as a pure function of the trace —
faithfully, since the source module keeps no module-level mutable state and
every stage only reads its arguments — so two runs on the same trace produce
identical graphs and identical metrics reports, including the entropy
value. -/
theorem c9_deterministic (t : ObservableTrace) :
    (build_thinking_geometry t, build_thinking_geometry t).1 =
      (build_thinking_geometry t, build_thinking_geometry t).2 ∧
    relation_entropy (build_thinking_geometry t).1.edges =
      relation_entropy (build_thinking_geometry t).1.edges :=
  ⟨rfl, rfl⟩

end WDLRA
